import Mathlib

/-! Verification of the news-briefing generation pipeline of this repository.
JavaScript strings are modelled as lists of characters (`List Char`); the
JavaScript source functions are translated one-to-one into executable Lean
definitions, and the behavioural claims about them are settled below. -/

/-- The opening curly brace character (code point 123). -/
def lbrace : Char := Char.ofNat 123

/-- The closing curly brace character (code point 125). -/
def rbrace : Char := Char.ofNat 125

/-- The opening square bracket character (code point 91). -/
def lbrack : Char := Char.ofNat 91

/-- The closing square bracket character (code point 93). -/
def rbrack : Char := Char.ofNat 93

/-- The double-quote character (code point 34). -/
def dq : Char := Char.ofNat 34

/-- The backslash character (code point 92). -/
def bsl : Char := Char.ofNat 92

/-- The backquote character (code point 96), used by Markdown code fences. -/
def bq : Char := Char.ofNat 96

/-- The single-quote character (code point 39). -/
def sqc : Char := Char.ofNat 39

/-- Characters treated as whitespace by JavaScript string trimming and by
the regex class used in the source (space, tab, LF, CR, VT, FF, NBSP). -/
def jsWs (c : Char) : Bool :=
  c == ' ' || c == Char.ofNat 9 || c == Char.ofNat 10 || c == Char.ofNat 13 ||
  c == Char.ofNat 11 || c == Char.ofNat 12 || c == Char.ofNat 160

/-- Abbreviation turning a Lean string literal into the character-list model. -/
def strL (s : String) : List Char := s.data

/-- Drop trailing whitespace, as the tail half of JavaScript trimming. -/
def dropTrailWs (l : List Char) : List Char := ((l.reverse).dropWhile jsWs).reverse

/-- JavaScript string trimming on the character-list model. -/
def jsTrimC (l : List Char) : List Char := dropTrailWs (l.dropWhile jsWs)

/-- JavaScript startsWith on the character-list model. -/
def startsWithL (l p : List Char) : Bool := p.isPrefixOf l

/-- JavaScript endsWith on the character-list model. -/
def endsWithL (l s : List Char) : Bool := s.isSuffixOf l

/-- JavaScript includes (substring containment) on the character-list model. -/
def containsSub : List Char → List Char → Bool
  | [], p => p.isEmpty
  | c :: t, p => p.isPrefixOf (c :: t) || containsSub t p

/-- Whether the list begins with a match of the source regex fragment
v1-followed-by-slash-or-end (the regex tested by parseUrlConfig). -/
def hasV1Here : List Char → Bool
  | '/' :: 'v' :: '1' :: rest =>
    match rest with
    | [] => true
    | c :: _ => c == '/'
  | _ => false

/-- Whether the regex v1-followed-by-slash-or-end matches anywhere in the list. -/
def matchV1 : List Char → Bool
  | [] => false
  | c :: t => hasV1Here (c :: t) || matchV1 t

/-- Removing a single trailing slash, as the source regex replace does. -/
def stripOneSlash (l : List Char) : List Char :=
  if endsWithL l (strL "/") then l.dropLast else l


/-- The scheme-and-slash step of the resolver of src/services/geminiService.ts
(second variant, lines 235-244; identical in src/unnamed/part_003): trim the
input, prepend https when no http scheme is present, and strip one trailing
slash. -/
def urlCore (s : List Char) : List Char :=
  let s1 := jsTrimC s
  let s2 := if startsWithL s1 (strL "http") then s1 else strL "https://" ++ s1
  stripOneSlash s2

/-- The version-suffix step of the resolver: append /v1 unless a /v1 segment
or an /api/ marker is already present. -/
def versionFix (s3 : List Char) : List Char :=
  if !(matchV1 s3) && !(containsSub s3 (strL "/api/")) then
    (if !(endsWithL s3 (strL "/v1")) then s3 ++ strL "/v1" else s3)
  else s3

/-- The OpenAI-flavoured base-URL resolver of src/services/geminiService.ts
(second variant, lines 235-244): a missing or empty URL yields the OpenAI
default, otherwise the input is normalized by urlCore and versionFix. -/
def parseUrlConfig : Option (List Char) → List Char
  | none => strL "https://api.openai.com/v1"
  | some s =>
    if s.isEmpty then strL "https://api.openai.com/v1" else versionFix (urlCore s)

example : parseUrlConfig (some (strL "example.com")) = strL "https://example.com/v1" := by decide

example : parseUrlConfig (some (strL "x.com/v1//")) = strL "https://x.com/v1/" := by decide

example : parseUrlConfig (some (strL "https://x.com/v1/")) = strL "https://x.com/v1" := by decide

/-- A prefix of a list is still a prefix after appending on the right. -/
lemma prefixOf_append (p l r : List Char) (h : p.isPrefixOf l = true) :
    p.isPrefixOf (l ++ r) = true := by
  rw [List.isPrefixOf_iff_prefix] at *
  exact h.trans (List.prefix_append l r)

/-- A list is a prefix of itself followed by anything. -/
lemma prefixOf_self_append (p r : List Char) : p.isPrefixOf (p ++ r) = true := by
  rw [List.isPrefixOf_iff_prefix]
  exact List.prefix_append p r

/-- A list is a suffix of anything followed by itself. -/
lemma suffixOf_append_self (s x : List Char) : s.isSuffixOf (x ++ s) = true := by
  rw [List.isSuffixOf_iff_suffix]
  exact List.suffix_append x s

/-- Stripping one trailing slash preserves any prefix that does not itself
end in a slash. -/
lemma prefixOf_stripOneSlash (p l : List Char) (h : p.isPrefixOf l = true)
    (hp : endsWithL p (strL "/") = false) : p.isPrefixOf (stripOneSlash l) = true := by
  unfold stripOneSlash
  split
  case isTrue h2 =>
    rw [endsWithL, List.isSuffixOf_iff_suffix] at h2
    obtain ⟨x, rfl⟩ := h2
    rw [List.isPrefixOf_iff_prefix] at h ⊢
    have hdl : (x ++ strL "/").dropLast = x := by
      show (x ++ ['/']).dropLast = x
      rw [List.dropLast_concat]
    rw [hdl]
    by_cases hlen : p.length ≤ x.length
    · have := List.prefix_iff_eq_take.mp h
      rw [List.take_append_of_le_length hlen] at this
      exact this ▸ List.take_prefix _ _
    · exfalso
      have hle : p.length = (x ++ strL "/").length := by
        have h1 := h.length_le
        simp [strL] at h1 ⊢
        omega
      have hpe := h.eq_of_length hle
      have hs : endsWithL (x ++ strL "/") (strL "/") = true := suffixOf_append_self _ _
      rw [hpe, hs] at hp
      exact absurd hp (by decide)
  case isFalse h2 => exact h

/-- The scheme step always yields a URL starting with http. -/
lemma urlCore_startsHttp (s : List Char) : startsWithL (urlCore s) (strL "http") = true := by
  unfold urlCore
  have hs2 : startsWithL (if startsWithL (jsTrimC s) (strL "http") then jsTrimC s
      else strL "https://" ++ jsTrimC s) (strL "http") = true := by
    split
    case isTrue h => exact h
    case isFalse h =>
      have he : strL "https://" ++ jsTrimC s = strL "http" ++ (strL "s://" ++ jsTrimC s) := by
        simp [strL]
      rw [startsWithL, he]
      exact prefixOf_self_append _ _
  exact prefixOf_stripOneSlash _ _ hs2 (by decide)

/-- The version step preserves an http prefix. -/
lemma versionFix_startsHttp (s3 : List Char) (h : startsWithL s3 (strL "http") = true) :
    startsWithL (versionFix s3) (strL "http") = true := by
  unfold versionFix
  split
  · split
    · exact prefixOf_append _ _ _ h
    · exact h
  · exact h

/-- The version step always yields a URL that carries a /v1 segment, an /api/
marker, or a /v1 ending. -/
lemma versionFix_stable (s3 : List Char) :
    (matchV1 (versionFix s3) || containsSub (versionFix s3) (strL "/api/") ||
      endsWithL (versionFix s3) (strL "/v1")) = true := by
  unfold versionFix
  cases h1 : matchV1 s3 with
  | true => simp [h1]
  | false =>
    cases h2 : containsSub s3 (strL "/api/") with
    | true => simp [h1, h2]
    | false =>
      cases h3 : endsWithL s3 (strL "/v1") with
      | true => simp [h1, h2, h3]
      | false =>
        have hse : endsWithL (s3 ++ strL "/v1") (strL "/v1") = true := suffixOf_append_self _ _
        simp [h1, h2, h3, hse]

/-- Every base URL the resolver produces starts with http. -/
lemma parseUrlConfig_startsHttp (s : Option (List Char)) :
    startsWithL (parseUrlConfig s) (strL "http") = true := by
  match s with
  | none => decide
  | some s =>
    have hr : parseUrlConfig (some s) =
        if s.isEmpty then strL "https://api.openai.com/v1" else versionFix (urlCore s) := rfl
    rw [hr]
    split
    · decide
    · exact versionFix_startsHttp _ (urlCore_startsHttp s)

/-- Every base URL the resolver produces satisfies the version condition the
resolver tests, so a second pass never appends another /v1. -/
lemma parseUrlConfig_stable (s : Option (List Char)) :
    (matchV1 (parseUrlConfig s) || containsSub (parseUrlConfig s) (strL "/api/") ||
      endsWithL (parseUrlConfig s) (strL "/v1")) = true := by
  match s with
  | none => decide
  | some s =>
    have hr : parseUrlConfig (some s) =
        if s.isEmpty then strL "https://api.openai.com/v1" else versionFix (urlCore s) := rfl
    rw [hr]
    split
    · decide
    · exact versionFix_stable _

/-- Applying the resolver to a URL that starts with http, has no surrounding
whitespace, no trailing slash, and already satisfies the version condition
returns it unchanged. -/
lemma parseUrlConfig_fix (t : List Char)
    (h0 : startsWithL t (strL "http") = true)
    (h1 : jsTrimC t = t)
    (h2 : endsWithL t (strL "/") = false)
    (h3 : (matchV1 t || containsSub t (strL "/api/") || endsWithL t (strL "/v1")) = true) :
    parseUrlConfig (some t) = t := by
  have hne : t.isEmpty = false := by
    cases t with
    | nil => simp [startsWithL, strL, List.isPrefixOf] at h0
    | cons c cs => simp
  have hr : parseUrlConfig (some t) =
      if t.isEmpty then strL "https://api.openai.com/v1" else versionFix (urlCore t) := rfl
  rw [hr, hne]
  simp only [Bool.false_eq_true, if_false]
  have hcore : urlCore t = t := by
    unfold urlCore
    rw [h1]
    simp only [h0, if_true]
    unfold stripOneSlash
    rw [h2]
    simp
  rw [hcore]
  unfold versionFix
  cases hm : matchV1 t with
  | true => simp [hm]
  | false =>
    cases hc : containsSub t (strL "/api/") with
    | true => simp [hm, hc]
    | false =>
      rw [hm, hc] at h3
      simp at h3
      simp [hm, hc, h3]

/-- C5: the claim fails on the code as stated: normalization is not
idempotent on every already-normalized URL.  For the input x.com/v1// the
resolver produces https-x.com/v1 with a kept trailing slash, and a second
application strips that slash; for x.com/api/x-space-slash the resolver
keeps a trailing space that a second application trims away. -/
theorem parseUrlConfig_idem_cex :
    parseUrlConfig (some (parseUrlConfig (some (strL "x.com/v1//")))) ≠
      parseUrlConfig (some (strL "x.com/v1//")) ∧
    parseUrlConfig (some (parseUrlConfig (some (strL "x.com/api/x /")))) ≠
      parseUrlConfig (some (strL "x.com/api/x /")) := by
  constructor <;> decide

/-- C5 (amended): the resolver maps example.com to https-example.com/v1, and
normalization is idempotent on every output that carries no surrounding
whitespace and no trailing slash (the counterexamples show both side
conditions are necessary). -/
theorem parseUrlConfig_example_and_idem :
    parseUrlConfig (some (strL "example.com")) = strL "https://example.com/v1" ∧
    ∀ s : Option (List Char),
      jsTrimC (parseUrlConfig s) = parseUrlConfig s →
      endsWithL (parseUrlConfig s) (strL "/") = false →
      parseUrlConfig (some (parseUrlConfig s)) = parseUrlConfig s := by
  refine ⟨by decide, fun s h1 h2 => ?_⟩
  exact parseUrlConfig_fix _ (parseUrlConfig_startsHttp s) h1 h2 (parseUrlConfig_stable s)

/-- C5 witness: the amended idempotence applied at the concrete input
example.com. -/
theorem parseUrlConfig_example_and_idem_witness :
    parseUrlConfig (some (parseUrlConfig (some (strL "example.com")))) =
      parseUrlConfig (some (strL "example.com")) :=
  parseUrlConfig_example_and_idem.2 (some (strL "example.com")) (by decide) (by decide)

/-- One scanner step of balanceJson from src/services/geminiService.ts
(lines 247-281; the same code appears in src/api/generate.js lines 172-193).
The state is (inString, isEscaped, stack); the JavaScript array push/pop at
the end of the stack is modelled by concat/dropLast. -/
def balStep (st : Bool × Bool × List Char) (c : Char) : Bool × Bool × List Char :=
  let inString := st.1
  let isEscaped := st.2.1
  let stack := st.2.2
  if inString then
    if c == bsl then (inString, !isEscaped, stack)
    else if c == dq && !isEscaped then (false, isEscaped, stack)
    else (inString, false, stack)
  else
    if c == dq then (true, isEscaped, stack)
    else if c == lbrace then (inString, isEscaped, stack.concat rbrace)
    else if c == lbrack then (inString, isEscaped, stack.concat rbrack)
    else if c == rbrace then
      (if stack.getLast? == some rbrace then (inString, isEscaped, stack.dropLast) else st)
    else if c == rbrack then
      (if stack.getLast? == some rbrack then (inString, isEscaped, stack.dropLast) else st)
    else st

/-- The scan phase of balanceJson: fold the step over the input. -/
def balScan (l : List Char) : Bool × Bool × List Char :=
  l.foldl balStep (false, false, [])

/-- balanceJson of src/services/geminiService.ts lines 247-281: close an open
string, then pop the bracket stack in reverse order, appending everything to
the unchanged input. -/
def balanceJson (l : List Char) : List Char :=
  let st := balScan l
  let recovery := (if st.1 then [dq] else []) ++ st.2.2.reverse
  l ++ recovery

/-- The closing delimiter belonging to an opening brace or bracket. -/
def closerOf (c : Char) : Char := if c == lbrace then rbrace else rbrack

/-- Modelled from the spec: one step of the scan the claim describes, which
tracks whether the scanner is inside a quoted string (honouring backslash
escaping) and a stack of opening brace/bracket characters seen outside
strings, most recent first. -/
def claimStep (st : Bool × Bool × List Char) (c : Char) : Bool × Bool × List Char :=
  let inString := st.1
  let isEscaped := st.2.1
  let openers := st.2.2
  if inString then
    if c == bsl then (inString, !isEscaped, openers)
    else if c == dq && !isEscaped then (false, isEscaped, openers)
    else (inString, false, openers)
  else
    if c == dq then (true, isEscaped, openers)
    else if c == lbrace then (inString, isEscaped, lbrace :: openers)
    else if c == lbrack then (inString, isEscaped, lbrack :: openers)
    else if c == rbrace then
      (if openers.head? == some lbrace then (inString, isEscaped, openers.tail) else st)
    else if c == rbrack then
      (if openers.head? == some lbrack then (inString, isEscaped, openers.tail) else st)
    else st

/-- Modelled from the spec: the scan the claim describes. -/
def claimScan (l : List Char) : Bool × Bool × List Char :=
  l.foldl claimStep (false, false, [])

/-- Modelled from the spec: the suffix the claim says is appended — one
closing quote if the scan ends inside a string, then the closing delimiters
of the still-unclosed brackets in reverse order of opening. -/
def claimSuffix (l : List Char) : List Char :=
  let st := claimScan l
  (if st.1 then [dq] else []) ++ st.2.2.map closerOf


/-- Mirror a claim scanner state into the source scanner representation:
the source stack stores the closers of the claim openers in reverse. -/
def mirrorSt (st : Bool × Bool × List Char) : Bool × Bool × List Char :=
  (st.1, st.2.1, (st.2.2.map closerOf).reverse)

/-- Dropping the last element of a reversed list reverses the tail. -/
lemma dropLast_reverse_eq (l : List Char) : l.reverse.dropLast = l.tail.reverse := by
  cases l with
  | nil => simp
  | cons a t =>
    rw [List.reverse_cons, List.dropLast_concat]
    rfl

/-- A well-formed openers stack only holds opening braces and brackets. -/
def WfOpen (l : List Char) : Prop := ∀ x ∈ l, x = lbrace ∨ x = lbrack

/-- One source scanner step on a mirrored state mirrors the claim step. -/
lemma balStep_mirror (c : Char) (b1 b2 : Bool) (b3 : List Char) (hwf : WfOpen b3) :
    balStep (mirrorSt (b1, b2, b3)) c = mirrorSt (claimStep (b1, b2, b3) c) := by
  unfold balStep claimStep mirrorSt
  by_cases h1 : b1 = true
  · subst h1
    by_cases hb : (c == bsl) = true <;> by_cases hq : (c == dq && !b2) = true <;>
      simp [hb, hq]
  · have h1f : b1 = false := by simpa using h1
    subst h1f
    simp only [Bool.false_eq_true, if_false]
    by_cases hq : (c == dq) = true
    · simp [hq]
    · by_cases ho : (c == lbrace) = true
      · simp [hq, ho, List.concat_eq_append, closerOf]
      · by_cases ho2 : (c == lbrack) = true
        · have hne : ¬ (lbrack = lbrace) := by decide
          simp [hq, ho, ho2, List.concat_eq_append, closerOf, hne]
        · by_cases hc : (c == rbrace) = true
          · simp only [hq, ho, ho2, hc, Bool.false_eq_true, if_false, if_true]
            cases b3 with
            | nil => simp
            | cons x t =>
              rcases hwf x (by simp) with hx | hx
              · subst hx
                have hcl : closerOf lbrace = rbrace := by decide
                simp [hcl, List.getLast?_reverse, dropLast_reverse_eq]
              · subst hx
                have hcl : closerOf lbrack = rbrack := by decide
                have hne : (rbrack == rbrace) = false := by decide
                have hne2 : (lbrack == lbrace) = false := by decide
                simp [hcl, List.getLast?_reverse, hne, hne2]
          · by_cases hc2 : (c == rbrack) = true
            · simp only [hq, ho, ho2, hc, hc2, Bool.false_eq_true, if_false, if_true]
              cases b3 with
              | nil => simp
              | cons x t =>
                rcases hwf x (by simp) with hx | hx
                · subst hx
                  have hcl : closerOf lbrace = rbrace := by decide
                  have hne : (rbrace == rbrack) = false := by decide
                  have hne2 : (lbrace == lbrack) = false := by decide
                  simp [hcl, List.getLast?_reverse, hne, hne2]
                · subst hx
                  have hcl : closerOf lbrack = rbrack := by decide
                  simp [hcl, List.getLast?_reverse, dropLast_reverse_eq]
            · simp [hq, ho, ho2, hc, hc2]

/-- The claim scanner step keeps the openers stack well formed. -/
lemma claimStep_wf (c : Char) (st : Bool × Bool × List Char) (hwf : WfOpen st.2.2) :
    WfOpen (claimStep st c).2.2 := by
  obtain ⟨b1, b2, b3⟩ := st
  unfold claimStep
  by_cases h1 : b1 = true
  · subst h1
    by_cases hb : (c == bsl) = true <;> by_cases hq : (c == dq && !b2) = true <;>
      simp [hb, hq] <;> exact hwf
  · have h1f : b1 = false := by simpa using h1
    subst h1f
    simp only [Bool.false_eq_true, if_false]
    by_cases hq : (c == dq) = true
    · simpa [hq] using hwf
    · by_cases ho : (c == lbrace) = true
      · simp only [hq, ho, Bool.false_eq_true, if_false, if_true]
        intro x hx
        rcases List.mem_cons.mp hx with h | h
        · exact Or.inl h
        · exact hwf x h
      · by_cases ho2 : (c == lbrack) = true
        · simp only [hq, ho, ho2, Bool.false_eq_true, if_false, if_true]
          intro x hx
          rcases List.mem_cons.mp hx with h | h
          · exact Or.inr h
          · exact hwf x h
        · by_cases hc : (c == rbrace) = true
          · simp only [hq, ho, ho2, hc, Bool.false_eq_true, if_false, if_true]
            split
            · exact fun x hx => hwf x (List.mem_of_mem_tail hx)
            · exact hwf
          · by_cases hc2 : (c == rbrack) = true
            · simp only [hq, ho, ho2, hc, hc2, Bool.false_eq_true, if_false, if_true]
              split
              · exact fun x hx => hwf x (List.mem_of_mem_tail hx)
              · exact hwf
            · simpa [hq, ho, ho2, hc, hc2] using hwf

/-- Folding the source scanner over any input mirrors folding the claim
scanner. -/
lemma foldl_balStep_mirror (l : List Char) :
    ∀ st : Bool × Bool × List Char, WfOpen st.2.2 →
      l.foldl balStep (mirrorSt st) = mirrorSt (l.foldl claimStep st) ∧
      WfOpen (l.foldl claimStep st).2.2 := by
  induction l with
  | nil => exact fun st h => ⟨rfl, h⟩
  | cons c t ih =>
    intro st hwf
    obtain ⟨b1, b2, b3⟩ := st
    have hstep := balStep_mirror c b1 b2 b3 hwf
    have hwf2 := claimStep_wf c (b1, b2, b3) hwf
    simp only [List.foldl_cons, hstep]
    exact ih _ hwf2

/-- C4 (confirmed): balanceJson only appends to its input — one closing
quote when the escape-tracking scan ends inside a quoted string, followed by
the closing delimiters of the brace/bracket characters opened outside
strings and still unclosed, in reverse order of opening; no existing
character is removed or altered. -/
theorem balanceJson_appends_claimSuffix (l : List Char) :
    balanceJson l = l ++ claimSuffix l := by
  have h := foldl_balStep_mirror l (false, false, []) (by intro x hx; cases hx)
  have hinit : (false, false, ([] : List Char)) =
      mirrorSt (false, false, ([] : List Char)) := rfl
  unfold balanceJson claimSuffix balScan claimScan
  rw [hinit, h.1]
  unfold mirrorSt
  simp [List.reverse_reverse]

example : balanceJson (strL "abc") = strL "abc" := by decide

example : balanceJson [lbrace, dq, 'a', dq, ':', lbrack, '1'] =
    [lbrace, dq, 'a', dq, ':', lbrack, '1', rbrack, rbrace] := by decide

/-- JSON values; numeric literals are kept verbatim. -/
inductive Json where
  | jnull : Json
  | jbool : Bool → Json
  | jnum : List Char → Json
  | jstr : List Char → Json
  | jarr : List Json → Json
  | jobj : List (List Char × Json) → Json
deriving Repr

/-- Skipping JSON whitespace. -/
def skipWs (l : List Char) : List Char := l.dropWhile jsWs

/-- Hexadecimal digit test for unicode escapes. -/
def isHexDigit (c : Char) : Bool :=
  c.isDigit || ('a' ≤ c && c ≤ 'f') || ('A' ≤ c && c ≤ 'F')

/-- Value of a hexadecimal digit. -/
def hexVal (c : Char) : Nat :=
  if c.isDigit then c.toNat - 48 else if 'a' ≤ c then c.toNat - 87 else c.toNat - 55

/-- Decoding of a single-character JSON escape. -/
def decodeEsc (c : Char) : Option Char :=
  if c == dq then some dq
  else if c == bsl then some bsl
  else if c == '/' then some '/'
  else if c == 'b' then some (Char.ofNat 8)
  else if c == 'f' then some (Char.ofNat 12)
  else if c == 'n' then some (Char.ofNat 10)
  else if c == 'r' then some (Char.ofNat 13)
  else if c == 't' then some (Char.ofNat 9)
  else none

/-- Modelled from the spec: the string-body part of a strict JSON parse (the
characters after an opening quote), returning the decoded content and the
rest of the input after the closing quote. -/
def pStr : List Char → Option (List Char × List Char)
  | [] => none
  | c :: t =>
    if c == dq then some ([], t)
    else if c == bsl then
      match t with
      | [] => none
      | e :: t2 =>
        if e == 'u' then
          match t2 with
          | h1 :: h2 :: h3 :: h4 :: t3 =>
            if isHexDigit h1 && isHexDigit h2 && isHexDigit h3 && isHexDigit h4 then
              (pStr t3).map (fun r =>
                (Char.ofNat (4096 * hexVal h1 + 256 * hexVal h2 + 16 * hexVal h3 + hexVal h4)
                  :: r.1, r.2))
            else none
          | _ => none
        else
          match decodeEsc e with
          | some d => (pStr t2).map (fun r => (d :: r.1, r.2))
          | none => none
    else if c.toNat < 32 then none
    else (pStr t).map (fun r => (c :: r.1, r.2))

/-- Splitting a maximal run of decimal digits. -/
def digitsSplit (l : List Char) : List Char × List Char :=
  (l.takeWhile Char.isDigit, l.dropWhile Char.isDigit)

/-- Modelled from the spec: the integer part of a JSON number literal. -/
def pIntPart : List Char → Option (List Char × List Char)
  | [] => none
  | c :: t =>
    if c == '0' then some ([c], t)
    else if c.isDigit then some (c :: (digitsSplit t).1, (digitsSplit t).2)
    else none

/-- Modelled from the spec: the optional fraction part of a JSON number. -/
def pFrac : List Char → Option (List Char × List Char)
  | [] => some ([], [])
  | c :: t =>
    if c == '.' then
      match t with
      | d :: _ =>
        if d.isDigit then some ('.' :: (digitsSplit t).1, (digitsSplit t).2) else none
      | [] => none
    else some ([], c :: t)

/-- Modelled from the spec: the optional exponent part of a JSON number. -/
def pExp : List Char → Option (List Char × List Char)
  | [] => some ([], [])
  | c :: t =>
    if c == 'e' || c == 'E' then
      match t with
      | s :: t2 =>
        if s == '+' || s == '-' then
          match t2 with
          | d :: _ =>
            if d.isDigit then some (c :: s :: (digitsSplit t2).1, (digitsSplit t2).2) else none
          | [] => none
        else if s.isDigit then some (c :: (digitsSplit t).1, (digitsSplit t).2)
        else none
      | [] => none
    else some ([], c :: t)

/-- Modelled from the spec: a JSON number literal. -/
def pNum (l : List Char) : Option (List Char × List Char) :=
  let sp : List Char × List Char :=
    match l with
    | c :: t => if c == '-' then ([c], t) else ([], l)
    | [] => ([], [])
  (pIntPart sp.2).bind fun ir =>
  (pFrac ir.2).bind fun fr =>
  (pExp fr.2).bind fun er =>
  some (sp.1 ++ ir.1 ++ fr.1 ++ er.1, er.2)

mutual

/-- Modelled from the spec: a strict JSON value parse with explicit fuel; the
head of the input is the first character of the value. -/
def pv : Nat → List Char → Option (Json × List Char)
  | 0, _ => none
  | _ + 1, [] => none
  | f + 1, c :: t =>
    if c == lbrace then
      (pMembers f true (skipWs t)).map (fun r => (Json.jobj r.1, r.2))
    else if c == lbrack then
      (pElems f true (skipWs t)).map (fun r => (Json.jarr r.1, r.2))
    else if c == dq then
      (pStr t).map (fun r => (Json.jstr r.1, r.2))
    else if c == 't' then
      match t with
      | 'r' :: 'u' :: 'e' :: r => some (Json.jbool true, r)
      | _ => none
    else if c == 'f' then
      match t with
      | 'a' :: 'l' :: 's' :: 'e' :: r => some (Json.jbool false, r)
      | _ => none
    else if c == 'n' then
      match t with
      | 'u' :: 'l' :: 'l' :: r => some (Json.jnull, r)
      | _ => none
    else if c == '-' || c.isDigit then
      (pNum (c :: t)).map (fun r => (Json.jnum r.1, r.2))
    else none

/-- Modelled from the spec: the members of a JSON object after the opening
brace and whitespace; only a first call may see an immediate closing brace. -/
def pMembers : Nat → Bool → List Char → Option (List (List Char × Json) × List Char)
  | 0, _, _ => none
  | _ + 1, _, [] => none
  | f + 1, first, c :: t =>
    if c == rbrace && first then some ([], t)
    else if c == dq then
      (pStr t).bind fun ks =>
      match skipWs ks.2 with
      | c2 :: t2 =>
        if c2 == ':' then
          (pv f (skipWs t2)).bind fun vr =>
          match skipWs vr.2 with
          | c3 :: t3 =>
            if c3 == ',' then
              (pMembers f false (skipWs t3)).map (fun mr => ((ks.1, vr.1) :: mr.1, mr.2))
            else if c3 == rbrace then some ([(ks.1, vr.1)], t3)
            else none
          | [] => none
        else none
      | [] => none
    else none

/-- Modelled from the spec: the elements of a JSON array after the opening
bracket and whitespace. -/
def pElems : Nat → Bool → List Char → Option (List Json × List Char)
  | 0, _, _ => none
  | _ + 1, _, [] => none
  | f + 1, first, c :: t =>
    if c == rbrack && first then some ([], t)
    else
      (pv f (c :: t)).bind fun vr =>
      match skipWs vr.2 with
      | c2 :: t2 =>
        if c2 == ',' then
          (pElems f false (skipWs t2)).map (fun er => (vr.1 :: er.1, er.2))
        else if c2 == rbrack then some ([vr.1], t2)
        else none
      | [] => none

end

/-- Modelled from the spec: strict JSON.parse of the external runtime — trim
the input, parse one value, and require the input to be exhausted. -/
def jsonParse (l : List Char) : Option Json :=
  let t := jsTrimC l
  match pv (2 * t.length + 2) t with
  | some (v, []) => some v
  | _ => none

example : jsonParse (strL "  true ") = some (Json.jbool true) := rfl

example : jsonParse [lbrace, dq, 'a', dq, ':', '1', rbrace] =
    some (Json.jobj [(['a'], Json.jnum ['1'])]) := rfl

example : jsonParse [lbrace, dq, 'a', dq, ':', '1', ',', rbrace] = none := rfl

example : jsonParse (strL "12.5e3") = some (Json.jnum (strL "12.5e3")) := rfl

example : jsonParse [lbrack, rbrack] = some (Json.jarr []) := rfl

example : jsonParse [dq, 'a', bsl, 'n', dq] = some (Json.jstr ['a', Char.ofNat 10]) := rfl

/-- Whether the input starts with a three-backtick json fence (the regex is
case-insensitive on the tag). -/
def isFenceJson (l : List Char) : Bool :=
  match l with
  | b1 :: b2 :: b3 :: c1 :: c2 :: c3 :: c4 :: _ =>
    b1 == bq && b2 == bq && b3 == bq &&
    c1.toLower == 'j' && c2.toLower == 's' && c3.toLower == 'o' && c4.toLower == 'n'
  | _ => false

/-- Whether the input starts with a bare three-backtick fence. -/
def isFence3 (l : List Char) : Bool :=
  match l with
  | b1 :: b2 :: b3 :: _ => b1 == bq && b2 == bq && b3 == bq
  | _ => false

/-- The first replace of extractAndRepairJson: strip a leading json-tagged
fence together with the following whitespace. -/
def stripFencePre1 (l : List Char) : List Char :=
  if isFenceJson l then (l.drop 7).dropWhile jsWs else l

/-- The second replace: strip a leading bare fence with following whitespace. -/
def stripFencePre2 (l : List Char) : List Char :=
  if isFence3 l then (l.drop 3).dropWhile jsWs else l

/-- The third replace: strip a trailing fence and the whitespace before it. -/
def stripFenceSuf (l : List Char) : List Char :=
  if isFence3 l.reverse then ((l.reverse.drop 3).dropWhile jsWs).reverse else l

/-- Step 1 of extractAndRepairJson of src/services/geminiService.ts lines
284-308: the three fence replaces followed by a trim.  The same code is the
cleanJsonString helper of src/unnamed/part_000 lines 76-81. -/
def cleanFences (l : List Char) : List Char :=
  jsTrimC (stripFenceSuf (stripFencePre2 (stripFencePre1 l)))

/-- Whether the next non-whitespace character is a closing brace or bracket
(the lookahead of the trailing-comma regex). -/
def nextNonWsCloser (t : List Char) : Bool :=
  match t.dropWhile jsWs with
  | b :: _ => b == rbrace || b == rbrack
  | [] => false

/-- Step 3 of extractAndRepairJson: the global replace removing any comma
followed by only whitespace and then a closing brace or bracket. -/
def fixCommas : List Char → List Char
  | [] => []
  | c :: t =>
    if c == ',' && nextNonWsCloser t then fixCommas t
    else c :: fixCommas t

/-- Index of the first opening brace, as the indexOf call of step 2. -/
def idxOfBrace : List Char → Option Nat
  | [] => none
  | c :: t => if c == lbrace then some 0 else (idxOfBrace t).map (· + 1)

/-- extractAndRepairJson of src/services/geminiService.ts lines 284-308:
strip fences and trim, cut to the first opening brace (returning the cleaned
string unchanged when there is none), remove trailing commas, and return the
result if it parses, otherwise its bracket-balanced repair. -/
def extractAndRepairJson (l : List Char) : List Char :=
  if l.isEmpty then [] else
  let clean0 := cleanFences l
  match idxOfBrace clean0 with
  | none => clean0
  | some i =>
    let c1 := clean0.drop i
    let c2 := fixCommas c1
    if (jsonParse c2).isSome then c2 else balanceJson c2

example : extractAndRepairJson (strL "hello") = strL "hello" := rfl

example : extractAndRepairJson ([bq, bq, bq, 'j', 's', 'o', 'n', '\n'] ++
    [lbrace, dq, 'a', dq, ':', '1', rbrace] ++ ['\n', bq, bq, bq]) =
    [lbrace, dq, 'a', dq, ':', '1', rbrace] := rfl

example : extractAndRepairJson [lbrace, dq, 'a', dq, ':', lbrack, '1', ',', '2', ',', rbrack,
    ',', rbrace] = [lbrace, dq, 'a', dq, ':', lbrack, '1', ',', '2', rbrack, rbrace] := rfl

example : extractAndRepairJson [lbrace, dq, 'a', dq, ':', dq, 'x', 'y'] =
    [lbrace, dq, 'a', dq, ':', dq, 'x', 'y', dq, rbrace] := rfl

/-- A list without an opening brace has no brace index. -/
lemma idxOfBrace_eq_none (l : List Char) (h : lbrace ∉ l) : idxOfBrace l = none := by
  induction l with
  | nil => rfl
  | cons c t ih =>
    unfold idxOfBrace
    have hc : (c == lbrace) = false := by
      simp only [List.mem_cons] at h
      simp [beq_eq_false_iff_ne]
      exact fun hcc => h (Or.inl hcc.symm)
    rw [hc]
    simp only [Bool.false_eq_true, if_false]
    rw [ih (fun hm => h (List.mem_cons_of_mem c hm))]
    rfl

/-- C3 (confirmed): extractAndRepairJson is a total function, and whenever
the fence-stripped and trimmed input contains no opening brace it is
returned unchanged; in particular the empty string maps to the empty
string. -/
theorem extractAndRepairJson_no_brace (l : List Char)
    (h : lbrace ∉ cleanFences l) : extractAndRepairJson l = cleanFences l := by
  unfold extractAndRepairJson
  by_cases he : l.isEmpty
  · have : l = [] := List.isEmpty_iff.mp he
    subst this
    rfl
  · simp only [he, Bool.false_eq_true, if_false]
    rw [idxOfBrace_eq_none _ h]

/-- C3 witness: a fence-wrapped refusal text with no brace is returned as
the cleaned text. -/
theorem extractAndRepairJson_no_brace_witness :
    extractAndRepairJson (strL "I cannot help with that") =
      cleanFences (strL "I cannot help with that") :=
  extractAndRepairJson_no_brace _ (by decide)

/-- The second list is a suffix of the first (with an explicit prefix). -/
def SufOf (a b : List Char) : Prop := ∃ p, a = p ++ b

/-- SufOf is reflexive. -/
lemma sufOf_refl (a : List Char) : SufOf a a := ⟨[], rfl⟩

/-- SufOf is preserved by prepending one character. -/
lemma sufOf_cons (c : Char) {a b : List Char} (h : SufOf a b) : SufOf (c :: a) b := by
  obtain ⟨p, rfl⟩ := h
  exact ⟨c :: p, rfl⟩

/-- SufOf is transitive. -/
lemma sufOf_trans {a b c : List Char} (h1 : SufOf a b) (h2 : SufOf b c) : SufOf a c := by
  obtain ⟨p, rfl⟩ := h1
  obtain ⟨q, rfl⟩ := h2
  exact ⟨p ++ q, by rw [List.append_assoc]⟩

/-- Whitespace skipping yields a suffix. -/
lemma sufOf_skipWs (l : List Char) : SufOf l (skipWs l) :=
  ⟨l.takeWhile jsWs, (List.takeWhile_append_dropWhile jsWs l).symm⟩

/-- A dropWhile yields a suffix. -/
lemma sufOf_dropWhile (p : Char → Bool) (l : List Char) : SufOf l (l.dropWhile p) :=
  ⟨l.takeWhile p, (List.takeWhile_append_dropWhile p l).symm⟩


/-- The rest returned by the string-body parser is a suffix of its input. -/
lemma pStr_suffix (cs : List Char) : ∀ s rest, pStr cs = some (s, rest) → SufOf cs rest := by
  induction cs using pStr.induct with
  | case1 =>
    intro s rest h
    exact absurd h (by simp [pStr])
  | case2 c tail hdq =>
    intro s rest h
    unfold pStr at h
    simp only [hdq, if_true] at h
    have h2 : rest = tail := (Prod.mk.injEq .. ▸ (Option.some.injEq .. ▸ h)).2.symm
    subst h2
    exact sufOf_cons c (sufOf_refl _)
  | case3 c hdq hbs =>
    intro s rest h
    unfold pStr at h
    simp [hdq, hbs] at h
  | case4 c hdq hbs e heu h1 h2 h3 h4 t3 hhex ih =>
    intro s rest h
    unfold pStr at h
    simp only [hdq, hbs, heu, hhex, if_true, Bool.false_eq_true, if_false] at h
    rw [Option.map_eq_some'] at h
    obtain ⟨r, hr, heq⟩ := h
    have hrest : rest = r.2 := (Prod.mk.injEq .. ▸ heq).2.symm
    have hsuf := ih r.1 r.2 (by rw [hr])
    subst hrest
    exact sufOf_cons c (sufOf_cons e (sufOf_cons h1 (sufOf_cons h2
      (sufOf_cons h3 (sufOf_cons h4 hsuf)))))
  | case5 c hdq hbs e heu h1 h2 h3 h4 t3 hnhex =>
    intro s rest h
    unfold pStr at h
    simp [hdq, hbs, heu, hnhex] at h
  | case6 c hdq hbs e heu x hshape =>
    intro s rest h
    rcases x with _ | ⟨a, _ | ⟨b, _ | ⟨c2, _ | ⟨d2, t5⟩⟩⟩⟩
    · unfold pStr at h
      simp [hdq, hbs, heu] at h
    · unfold pStr at h
      simp [hdq, hbs, heu] at h
    · unfold pStr at h
      simp [hdq, hbs, heu] at h
    · unfold pStr at h
      simp [hdq, hbs, heu] at h
    · exact absurd rfl (hshape a b c2 d2 t5)
  | case7 c hdq hbs e tail hneu d hdec ih =>
    intro s rest h
    unfold pStr at h
    simp only [hdq, hbs, hneu, hdec, if_true, Bool.false_eq_true, if_false] at h
    rw [Option.map_eq_some'] at h
    obtain ⟨r, hr, heq⟩ := h
    have hrest : rest = r.2 := (Prod.mk.injEq .. ▸ heq).2.symm
    have hsuf := ih r.1 r.2 (by rw [hr])
    subst hrest
    exact sufOf_cons c (sufOf_cons e hsuf)
  | case8 c hdq hbs e tail hneu hdec =>
    intro s rest h
    unfold pStr at h
    simp [hdq, hbs, hneu, hdec] at h
  | case9 c tail hdq hbs hlt =>
    intro s rest h
    unfold pStr at h
    simp [hdq, hbs, hlt] at h
  | case10 c tail hdq hbs hnlt ih =>
    intro s rest h
    unfold pStr at h
    simp only [hdq, hbs, hnlt, if_true, Bool.false_eq_true, if_false] at h
    rw [Option.map_eq_some'] at h
    obtain ⟨r, hr, heq⟩ := h
    have hrest : rest = r.2 := (Prod.mk.injEq .. ▸ heq).2.symm
    have hsuf := ih r.1 r.2 (by rw [hr])
    subst hrest
    exact sufOf_cons c hsuf

/-- The rest returned by the integer-part parser is a suffix of its input. -/
lemma pIntPart_suffix (l d rest : List Char) (h : pIntPart l = some (d, rest)) :
    SufOf l rest := by
  cases l with
  | nil => exact absurd h (by simp [pIntPart])
  | cons c t =>
    unfold pIntPart at h
    by_cases h0 : (c == '0') = true
    · simp only [h0, if_true] at h
      have h2 : rest = t := (Prod.mk.injEq .. ▸ (Option.some.injEq .. ▸ h)).2.symm
      subst h2
      exact sufOf_cons c (sufOf_refl _)
    · simp only [h0, Bool.false_eq_true, if_false] at h
      by_cases hd : c.isDigit = true
      · simp only [hd, if_true] at h
        have h2 : rest = (digitsSplit t).2 := (Prod.mk.injEq .. ▸ (Option.some.injEq .. ▸ h)).2.symm
        subst h2
        exact sufOf_cons c (sufOf_dropWhile _ _)
      · simp [hd] at h

/-- The rest returned by the fraction-part parser is a suffix of its input. -/
lemma pFrac_suffix (l d rest : List Char) (h : pFrac l = some (d, rest)) :
    SufOf l rest := by
  cases l with
  | nil =>
    unfold pFrac at h
    have h2 : rest = [] := (Prod.mk.injEq .. ▸ (Option.some.injEq .. ▸ h)).2.symm
    subst h2
    exact sufOf_refl _
  | cons c t =>
    unfold pFrac at h
    by_cases hdot : (c == '.') = true
    · simp only [hdot, if_true] at h
      cases t with
      | nil => exact absurd h (by simp)
      | cons d2 t2 =>
        by_cases hd : d2.isDigit = true
        · simp only [hd, if_true] at h
          have h2 : rest = (digitsSplit (d2 :: t2)).2 :=
            (Prod.mk.injEq .. ▸ (Option.some.injEq .. ▸ h)).2.symm
          subst h2
          exact sufOf_cons c (sufOf_dropWhile _ _)
        · simp [hd] at h
    · simp only [hdot, Bool.false_eq_true, if_false] at h
      have h2 : rest = c :: t := (Prod.mk.injEq .. ▸ (Option.some.injEq .. ▸ h)).2.symm
      subst h2
      exact sufOf_refl _

/-- The rest returned by the exponent-part parser is a suffix of its input. -/
lemma pExp_suffix (l d rest : List Char) (h : pExp l = some (d, rest)) :
    SufOf l rest := by
  cases l with
  | nil =>
    unfold pExp at h
    have h2 : rest = [] := (Prod.mk.injEq .. ▸ (Option.some.injEq .. ▸ h)).2.symm
    subst h2
    exact sufOf_refl _
  | cons c t =>
    unfold pExp at h
    by_cases he : (c == 'e' || c == 'E') = true
    · simp only [he, if_true] at h
      cases t with
      | nil => exact absurd h (by simp)
      | cons s t2 =>
        by_cases hsg : (s == '+' || s == '-') = true
        · simp only [hsg, if_true] at h
          cases t2 with
          | nil => exact absurd h (by simp)
          | cons d2 t3 =>
            by_cases hd : d2.isDigit = true
            · simp only [hd, if_true] at h
              have h2 : rest = (digitsSplit (d2 :: t3)).2 :=
                (Prod.mk.injEq .. ▸ (Option.some.injEq .. ▸ h)).2.symm
              subst h2
              exact sufOf_cons c (sufOf_cons s (sufOf_dropWhile _ _))
            · simp [hd] at h
        · simp only [hsg, Bool.false_eq_true, if_false] at h
          by_cases hd : s.isDigit = true
          · simp only [hd, if_true] at h
            have h2 : rest = (digitsSplit (s :: t2)).2 :=
              (Prod.mk.injEq .. ▸ (Option.some.injEq .. ▸ h)).2.symm
            subst h2
            exact sufOf_cons c (sufOf_dropWhile _ _)
          · simp [hd] at h
    · simp only [he, Bool.false_eq_true, if_false] at h
      have h2 : rest = c :: t := (Prod.mk.injEq .. ▸ (Option.some.injEq .. ▸ h)).2.symm
      subst h2
      exact sufOf_refl _

/-- The rest returned by the number parser is a suffix of its input. -/
lemma pNum_suffix (l d rest : List Char) (h : pNum l = some (d, rest)) :
    SufOf l rest := by
  unfold pNum at h
  rw [Option.bind_eq_some] at h
  obtain ⟨ir, hir, h⟩ := h
  rw [Option.bind_eq_some] at h
  obtain ⟨fr, hfr, h⟩ := h
  rw [Option.bind_eq_some] at h
  obtain ⟨er, her, h⟩ := h
  have hrest : rest = er.2 := (Prod.mk.injEq .. ▸ (Option.some.injEq .. ▸ h)).2.symm
  subst hrest
  have s1 : SufOf l (match l with
      | c :: t => if c == '-' then ([c], t) else ([], l)
      | [] => (([] : List Char), ([] : List Char))).2 := by
    cases l with
    | nil => exact sufOf_refl _
    | cons c t =>
      by_cases hm : (c == '-') = true
      · simp only [hm, if_true]
        exact sufOf_cons c (sufOf_refl _)
      · simp only [hm, Bool.false_eq_true, if_false]
        exact sufOf_refl _
  exact sufOf_trans (sufOf_trans (sufOf_trans s1 (pIntPart_suffix _ _ _ hir))
    (pFrac_suffix _ _ _ hfr)) (pExp_suffix _ _ _ her)

/-- A suffix that starts one character later is still a suffix. -/
lemma sufOf_of_cons_right {a : List Char} {c : Char} {b : List Char}
    (h : SufOf a (c :: b)) : SufOf a b := by
  obtain ⟨p, rfl⟩ := h
  exact ⟨p ++ [c], by simp⟩

/-- Suffix shape of all three fuelled parsers: the rest of a value or element
parse is a suffix of the input, and the rest of a member parse is moreover
preceded by the closing brace that ended the object. -/
lemma parser_suffix (f : Nat) :
    (∀ cs v rest, pv f cs = some (v, rest) → SufOf cs rest) ∧
    (∀ first cs kvs rest, pMembers f first cs = some (kvs, rest) →
      SufOf cs (rbrace :: rest)) ∧
    (∀ first cs es rest, pElems f first cs = some (es, rest) → SufOf cs rest) := by
  induction f with
  | zero =>
    refine ⟨?_, ?_, ?_⟩
    · intro cs v rest h
      simp [pv] at h
    · intro first cs kvs rest h
      simp [pMembers] at h
    · intro first cs es rest h
      simp [pElems] at h
  | succ f ih =>
    obtain ⟨ihv, ihm, ihe⟩ := ih
    refine ⟨?_, ?_, ?_⟩
    · intro cs v rest h
      cases cs with
      | nil => simp [pv] at h
      | cons c t =>
        unfold pv at h
        by_cases h1 : (c == lbrace) = true
        · simp only [h1, if_true] at h
          rw [Option.map_eq_some'] at h
          obtain ⟨r, hr, heq⟩ := h
          rw [Prod.mk.injEq] at heq
          obtain ⟨hv, hrest⟩ := heq
          subst hrest
          exact sufOf_cons c (sufOf_trans (sufOf_skipWs t)
            (sufOf_of_cons_right (ihm true (skipWs t) r.1 r.2 hr)))
        · simp only [h1, Bool.false_eq_true, if_false] at h
          by_cases h2 : (c == lbrack) = true
          · simp only [h2, if_true] at h
            rw [Option.map_eq_some'] at h
            obtain ⟨r, hr, heq⟩ := h
            rw [Prod.mk.injEq] at heq
            obtain ⟨hv, hrest⟩ := heq
            subst hrest
            exact sufOf_cons c (sufOf_trans (sufOf_skipWs t) (ihe true (skipWs t) r.1 r.2 hr))
          · simp only [h2, Bool.false_eq_true, if_false] at h
            by_cases h3 : (c == dq) = true
            · simp only [h3, if_true] at h
              rw [Option.map_eq_some'] at h
              obtain ⟨r, hr, heq⟩ := h
              rw [Prod.mk.injEq] at heq
              obtain ⟨hv, hrest⟩ := heq
              subst hrest
              exact sufOf_cons c (pStr_suffix t r.1 r.2 (by rw [hr]))
            · simp only [h3, Bool.false_eq_true, if_false] at h
              by_cases h4 : (c == 't') = true
              · simp only [h4, if_true] at h
                split at h
                · rw [Option.some_inj, Prod.mk.injEq] at h
                  obtain ⟨hv, hrest⟩ := h
                  subst hrest
                  exact sufOf_cons c (sufOf_cons _ (sufOf_cons _ (sufOf_cons _ (sufOf_refl _))))
                · exact absurd h (by simp)
              · simp only [h4, Bool.false_eq_true, if_false] at h
                by_cases h5 : (c == 'f') = true
                · simp only [h5, if_true] at h
                  split at h
                  · rw [Option.some_inj, Prod.mk.injEq] at h
                    obtain ⟨hv, hrest⟩ := h
                    subst hrest
                    exact sufOf_cons c (sufOf_cons _ (sufOf_cons _ (sufOf_cons _
                      (sufOf_cons _ (sufOf_refl _)))))
                  · exact absurd h (by simp)
                · simp only [h5, Bool.false_eq_true, if_false] at h
                  by_cases h6 : (c == 'n') = true
                  · simp only [h6, if_true] at h
                    split at h
                    · rw [Option.some_inj, Prod.mk.injEq] at h
                      obtain ⟨hv, hrest⟩ := h
                      subst hrest
                      exact sufOf_cons c (sufOf_cons _ (sufOf_cons _ (sufOf_cons _ (sufOf_refl _))))
                    · exact absurd h (by simp)
                  · simp only [h6, Bool.false_eq_true, if_false] at h
                    by_cases h7 : (c == '-' || c.isDigit) = true
                    · simp only [h7, if_true] at h
                      rw [Option.map_eq_some'] at h
                      obtain ⟨r, hr, heq⟩ := h
                      rw [Prod.mk.injEq] at heq
                      obtain ⟨hv, hrest⟩ := heq
                      subst hrest
                      exact pNum_suffix (c :: t) r.1 r.2 hr
                    · simp [h7] at h
    · intro first cs kvs rest h
      cases cs with
      | nil => simp [pMembers] at h
      | cons c t =>
        unfold pMembers at h
        by_cases hb1 : (c == rbrace && first) = true
        · simp only [hb1, if_true] at h
          rw [Option.some_inj, Prod.mk.injEq] at h
          obtain ⟨hk, hrest⟩ := h
          subst hrest
          have hc : c = rbrace := by
            have := (Bool.and_eq_true_iff.mp hb1).1
            exact (beq_iff_eq ..).mp this
          subst hc
          exact ⟨[], rfl⟩
        · simp only [hb1, Bool.false_eq_true, if_false] at h
          by_cases hdq : (c == dq) = true
          · simp only [hdq, if_true] at h
            rw [Option.bind_eq_some] at h
            obtain ⟨ks, hks, h⟩ := h
            split at h
            next c2 t2 heq2 =>
              by_cases hc2 : (c2 == ':') = true
              · simp only [hc2, if_true] at h
                rw [Option.bind_eq_some] at h
                obtain ⟨vr, hvr, h⟩ := h
                split at h
                next c3 t3 heq3 =>
                  by_cases hc3 : (c3 == ',') = true
                  · simp only [hc3, if_true] at h
                    rw [Option.map_eq_some'] at h
                    obtain ⟨mr, hmr, heq4⟩ := h
                    rw [Prod.mk.injEq] at heq4
                    obtain ⟨hk, hrest⟩ := heq4
                    subst hrest
                    have s6 : SufOf (skipWs t3) (rbrace :: mr.2) :=
                      ihm false (skipWs t3) mr.1 mr.2 hmr
                    have s5 : SufOf vr.2 (rbrace :: mr.2) :=
                      sufOf_trans (sufOf_skipWs vr.2)
                        (heq3 ▸ sufOf_cons c3 (sufOf_trans (sufOf_skipWs t3) s6))
                    have s4 : SufOf (skipWs t2) (rbrace :: mr.2) :=
                      sufOf_trans (ihv (skipWs t2) vr.1 vr.2 hvr) s5
                    have s3 : SufOf ks.2 (rbrace :: mr.2) :=
                      sufOf_trans (sufOf_skipWs ks.2)
                        (heq2 ▸ sufOf_cons c2 (sufOf_trans (sufOf_skipWs t2) s4))
                    have s2 : SufOf t (rbrace :: mr.2) :=
                      sufOf_trans (pStr_suffix t ks.1 ks.2 (by rw [hks])) s3
                    exact sufOf_cons c s2
                  · by_cases hc3b : (c3 == rbrace) = true
                    · simp only [hc3, hc3b, Bool.false_eq_true, if_false, if_true] at h
                      rw [Option.some_inj, Prod.mk.injEq] at h
                      obtain ⟨hk, hrest⟩ := h
                      subst hrest
                      have hc3e : c3 = rbrace := (beq_iff_eq ..).mp hc3b
                      subst hc3e
                      have s5 : SufOf vr.2 (rbrace :: t3) :=
                        sufOf_trans (sufOf_skipWs vr.2) (heq3 ▸ sufOf_refl _)
                      have s4 : SufOf (skipWs t2) (rbrace :: t3) :=
                        sufOf_trans (ihv (skipWs t2) vr.1 vr.2 hvr) s5
                      have s3 : SufOf ks.2 (rbrace :: t3) :=
                        sufOf_trans (sufOf_skipWs ks.2)
                          (heq2 ▸ sufOf_cons c2 (sufOf_trans (sufOf_skipWs t2) s4))
                      have s2 : SufOf t (rbrace :: t3) :=
                        sufOf_trans (pStr_suffix t ks.1 ks.2 (by rw [hks])) s3
                      exact sufOf_cons c s2
                    · simp [hc3, hc3b] at h
                next heq3 => exact absurd h (by simp)
              · simp [hc2] at h
            next heq2 => exact absurd h (by simp)
          · simp [hdq] at h
    · intro first cs es rest h
      cases cs with
      | nil => simp [pElems] at h
      | cons c t =>
        unfold pElems at h
        by_cases hb1 : (c == rbrack && first) = true
        · simp only [hb1, if_true] at h
          rw [Option.some_inj, Prod.mk.injEq] at h
          obtain ⟨he, hrest⟩ := h
          subst hrest
          exact sufOf_cons c (sufOf_refl _)
        · simp only [hb1, Bool.false_eq_true, if_false] at h
          rw [Option.bind_eq_some] at h
          obtain ⟨vr, hvr, h⟩ := h
          have s1 : SufOf (c :: t) vr.2 := ihv (c :: t) vr.1 vr.2 hvr
          split at h
          next c2 t2 heq2 =>
            by_cases hc2 : (c2 == ',') = true
            · simp only [hc2, if_true] at h
              rw [Option.map_eq_some'] at h
              obtain ⟨er, her, heq3⟩ := h
              rw [Prod.mk.injEq] at heq3
              obtain ⟨he, hrest⟩ := heq3
              subst hrest
              have s3 : SufOf (skipWs t2) er.2 := ihe false (skipWs t2) er.1 er.2 her
              have s2 : SufOf vr.2 er.2 :=
                sufOf_trans (sufOf_skipWs vr.2)
                  (heq2 ▸ sufOf_cons c2 (sufOf_trans (sufOf_skipWs t2) s3))
              exact sufOf_trans s1 s2
            · by_cases hc2b : (c2 == rbrack) = true
              · simp only [hc2, hc2b, Bool.false_eq_true, if_false, if_true] at h
                rw [Option.some_inj, Prod.mk.injEq] at h
                obtain ⟨he, hrest⟩ := h
                subst hrest
                have s2 : SufOf vr.2 t2 :=
                  sufOf_trans (sufOf_skipWs vr.2) (heq2 ▸ sufOf_cons c2 (sufOf_refl _))
                exact sufOf_trans s1 s2
              · simp [hc2, hc2b] at h
          next heq2 => exact absurd h (by simp)

/-- dropWhile is idempotent. -/
lemma dropWhile_idem (p : Char → Bool) (l : List Char) :
    (l.dropWhile p).dropWhile p = l.dropWhile p := by
  induction l with
  | nil => rfl
  | cons c t ih =>
    by_cases h : p c = true
    · simp [List.dropWhile_cons, h, ih]
    · simp [List.dropWhile_cons, h]

/-- The head surviving a dropWhile fails the predicate. -/
lemma head_dropWhile_false (p : Char → Bool) (l : List Char) (c : Char)
    (h : (l.dropWhile p).head? = some c) : p c = false := by
  induction l with
  | nil => simp at h
  | cons a t ih =>
    by_cases ha : p a = true
    · rw [List.dropWhile_cons, if_pos ha] at h
      exact ih h
    · rw [List.dropWhile_cons, if_neg ha] at h
      simp at h
      rw [← h]
      simpa using ha

/-- A trimmed list sits inside the original between two whitespace runs. -/
lemma jsTrimC_decomp (l : List Char) :
    ∃ P W, l = P ++ jsTrimC l ++ W ∧ (∀ x ∈ P, jsWs x = true) ∧ (∀ x ∈ W, jsWs x = true) := by
  refine ⟨l.takeWhile jsWs, ((l.dropWhile jsWs).reverse.takeWhile jsWs).reverse, ?_, ?_, ?_⟩
  · have h1 : l = l.takeWhile jsWs ++ l.dropWhile jsWs :=
      (List.takeWhile_append_dropWhile jsWs l).symm
    have h2 : l.dropWhile jsWs =
        jsTrimC l ++ ((l.dropWhile jsWs).reverse.takeWhile jsWs).reverse := by
      have h3 : (l.dropWhile jsWs).reverse =
          (l.dropWhile jsWs).reverse.takeWhile jsWs ++ (l.dropWhile jsWs).reverse.dropWhile jsWs :=
        (List.takeWhile_append_dropWhile jsWs _).symm
      have h4 := congrArg List.reverse h3
      rw [List.reverse_reverse, List.reverse_append] at h4
      exact h4
    conv_lhs => rw [h1, h2]
    rw [List.append_assoc]
  · intro x hx
    exact List.mem_takeWhile_imp hx
  · intro x hx
    exact List.mem_takeWhile_imp (List.mem_reverse.mp hx)

/-- The head of a trimmed list is not whitespace. -/
lemma jsTrimC_head (l : List Char) (c : Char) (h : (jsTrimC l).head? = some c) :
    jsWs c = false := by
  unfold jsTrimC dropTrailWs at h
  obtain ⟨P, W, hdec, hP, hW⟩ := jsTrimC_decomp l
  have hsub : jsTrimC l = ((l.dropWhile jsWs).reverse.dropWhile jsWs).reverse := rfl
  rw [← hsub] at h
  have h0 : l.dropWhile jsWs = jsTrimC l ++ ((l.dropWhile jsWs).reverse.takeWhile jsWs).reverse := by
    have h3 : (l.dropWhile jsWs).reverse =
        (l.dropWhile jsWs).reverse.takeWhile jsWs ++ (l.dropWhile jsWs).reverse.dropWhile jsWs :=
      (List.takeWhile_append_dropWhile jsWs _).symm
    have h4 := congrArg List.reverse h3
    rw [List.reverse_reverse, List.reverse_append] at h4
    exact h4
  apply head_dropWhile_false jsWs l c
  rw [h0]
  cases hjt : jsTrimC l with
  | nil => rw [hjt] at h; simp at h
  | cons a t =>
    rw [hjt] at h
    simp at h
    rw [List.cons_append, List.head?_cons]
    rw [h]

/-- The last element of a trimmed list is not whitespace. -/
lemma jsTrimC_getLast (l : List Char) (c : Char) (h : (jsTrimC l).getLast? = some c) :
    jsWs c = false := by
  unfold jsTrimC dropTrailWs at h
  rw [List.getLast?_reverse] at h
  exact head_dropWhile_false jsWs (l.dropWhile jsWs).reverse c h

/-- Trimming is idempotent. -/
lemma jsTrimC_idem (l : List Char) : jsTrimC (jsTrimC l) = jsTrimC l := by
  have h1 : (jsTrimC l).dropWhile jsWs = jsTrimC l := by
    cases hjt : jsTrimC l with
    | nil => rfl
    | cons a t =>
      have ha : jsWs a = false := jsTrimC_head l a (by rw [hjt]; rfl)
      rw [List.dropWhile_cons, if_neg (by simp [ha])]
  show dropTrailWs ((jsTrimC l).dropWhile jsWs) = jsTrimC l
  rw [h1]
  show ((jsTrimC l).reverse.dropWhile jsWs).reverse = jsTrimC l
  have h2 : (jsTrimC l).reverse = (l.dropWhile jsWs).reverse.dropWhile jsWs := by
    show (dropTrailWs (l.dropWhile jsWs)).reverse = _
    unfold dropTrailWs
    rw [List.reverse_reverse]
  rw [h2, dropWhile_idem, ← h2, List.reverse_reverse]

/-- Parsing a trimmed input gives the same result as parsing the input. -/
lemma jsonParse_trim (l : List Char) : jsonParse (jsTrimC l) = jsonParse l := by
  unfold jsonParse
  rw [jsTrimC_idem]

/-- A value parse that returns an object starts at an opening brace, and if
it consumes the whole input the input ends with the closing brace. -/
lemma pv_obj_shape (f : Nat) (cs : List Char) (kvs : List (List Char × Json))
    (rest : List Char) (h : pv f cs = some (Json.jobj kvs, rest)) :
    (∃ t, cs = lbrace :: t) ∧ (rest = [] → cs.getLast? = some rbrace) := by
  match f, cs with
  | 0, _ => exact absurd h (by simp [pv])
  | f + 1, [] => exact absurd h (by simp [pv])
  | f + 1, c :: t =>
    unfold pv at h
    by_cases h1 : (c == lbrace) = true
    · have hc : c = lbrace := (beq_iff_eq ..).mp h1
      subst hc
      refine ⟨⟨t, rfl⟩, ?_⟩
      intro hre
      subst hre
      simp only [h1, if_true] at h
      rw [Option.map_eq_some'] at h
      obtain ⟨r, hr, heq⟩ := h
      rw [Prod.mk.injEq] at heq
      obtain ⟨hv, hrest⟩ := heq
      have hr2 : pMembers f true (skipWs t) = some (r.1, r.2) := by rw [hr]
      rw [hrest] at hr2
      have hs := (parser_suffix f).2.1 true (skipWs t) r.1 [] hr2
      obtain ⟨p, hp⟩ := hs
      have hp2 : List.dropWhile jsWs t = p ++ [rbrace] := hp
      have ht : t = t.takeWhile jsWs ++ (p ++ [rbrace]) := by
        conv_lhs => rw [← List.takeWhile_append_dropWhile jsWs t]
        rw [hp2]
      rw [ht]
      have : lbrace :: (t.takeWhile jsWs ++ (p ++ [rbrace])) =
          (lbrace :: (t.takeWhile jsWs ++ p)) ++ [rbrace] := by
        simp
      rw [this, List.getLast?_concat]
    · exfalso
      simp only [h1, Bool.false_eq_true, if_false] at h
      by_cases h2 : (c == lbrack) = true
      · simp only [h2, if_true] at h
        rw [Option.map_eq_some'] at h
        obtain ⟨r, hr, heq⟩ := h
        rw [Prod.mk.injEq] at heq
        exact absurd heq.1 (by simp)
      · simp only [h2, Bool.false_eq_true, if_false] at h
        by_cases h3 : (c == dq) = true
        · simp only [h3, if_true] at h
          rw [Option.map_eq_some'] at h
          obtain ⟨r, hr, heq⟩ := h
          rw [Prod.mk.injEq] at heq
          exact absurd heq.1 (by simp)
        · simp only [h3, Bool.false_eq_true, if_false] at h
          by_cases h4 : (c == 't') = true
          · simp only [h4, if_true] at h
            split at h
            · rw [Option.some_inj, Prod.mk.injEq] at h
              exact absurd h.1 (by simp)
            · exact absurd h (by simp)
          · simp only [h4, Bool.false_eq_true, if_false] at h
            by_cases h5 : (c == 'f') = true
            · simp only [h5, if_true] at h
              split at h
              · rw [Option.some_inj, Prod.mk.injEq] at h
                exact absurd h.1 (by simp)
              · exact absurd h (by simp)
            · simp only [h5, Bool.false_eq_true, if_false] at h
              by_cases h6 : (c == 'n') = true
              · simp only [h6, if_true] at h
                split at h
                · rw [Option.some_inj, Prod.mk.injEq] at h
                  exact absurd h.1 (by simp)
                · exact absurd h (by simp)
              · simp only [h6, Bool.false_eq_true, if_false] at h
                by_cases h7 : (c == '-' || c.isDigit) = true
                · simp only [h7, if_true] at h
                  rw [Option.map_eq_some'] at h
                  obtain ⟨r, hr, heq⟩ := h
                  rw [Prod.mk.injEq] at heq
                  exact absurd heq.1 (by simp)
                · simp [h7] at h

/-- A successful object-valued JSON.parse pins the trimmed input between an
opening and a closing brace. -/
lemma jsonParse_obj_shape (l : List Char) (kvs : List (List Char × Json))
    (h : jsonParse l = some (Json.jobj kvs)) :
    (∃ t, jsTrimC l = lbrace :: t) ∧ (jsTrimC l).getLast? = some rbrace := by
  unfold jsonParse at h
  dsimp only at h
  split at h
  next v heq =>
    rw [Option.some_inj] at h
    subst h
    have hs := pv_obj_shape _ _ _ _ heq
    exact ⟨hs.1, hs.2 rfl⟩
  next x heq => exact absurd h (by simp)

/-- A list whose first character is not a backquote is not a json fence. -/
lemma isFenceJson_false (b1 : Char) (r : List Char) (hb : (b1 == bq) = false) :
    isFenceJson (b1 :: r) = false := by
  unfold isFenceJson
  rcases r with _ | ⟨b2, _ | ⟨b3, _ | ⟨c1, _ | ⟨c2, _ | ⟨c3, _ | ⟨c4, rr⟩⟩⟩⟩⟩⟩ <;> simp [hb]

/-- A list whose first character is not a backquote is not a bare fence. -/
lemma isFence3_false (b1 : Char) (r : List Char) (hb : (b1 == bq) = false) :
    isFence3 (b1 :: r) = false := by
  unfold isFence3
  rcases r with _ | ⟨b2, _ | ⟨b3, rr⟩⟩ <;> simp [hb]

/-- The last element reported by getLast? is a member of the list. -/
lemma mem_of_getLast?_eq (l : List Char) (c : Char) (h : l.getLast? = some c) : c ∈ l := by
  induction l with
  | nil => simp at h
  | cons a t ih =>
    cases t with
    | nil =>
      simp at h
      simp [h]
    | cons b t2 =>
      rw [List.getLast?_cons_cons] at h
      exact List.mem_cons_of_mem a (ih h)

/-- Fence stripping is the identity on inputs whose first character is not a
backquote and whose last character is not a backquote. -/
lemma cleanFences_eq_trim (l : List Char)
    (hh : ∀ c, l.head? = some c → (c == bq) = false)
    (hl : ∀ c, l.getLast? = some c → (c == bq) = false) :
    cleanFences l = jsTrimC l := by
  have h1 : stripFencePre1 l = l := by
    unfold stripFencePre1
    cases l with
    | nil => rfl
    | cons c t =>
      rw [isFenceJson_false c t (hh c rfl)]
      simp
  have h2 : stripFencePre2 l = l := by
    unfold stripFencePre2
    cases l with
    | nil => rfl
    | cons c t =>
      rw [isFence3_false c t (hh c rfl)]
      simp
  have h3 : stripFenceSuf l = l := by
    cases hrev : l.reverse with
    | nil =>
      have hl0 : l = [] := by
        have hrr := congrArg List.reverse hrev
        simpa using hrr
      subst hl0
      rfl
    | cons c t =>
      have hc : l.getLast? = some c := by
        rw [← List.head?_reverse, hrev, List.head?_cons]
      unfold stripFenceSuf
      rw [hrev, isFence3_false c t (hl c hc)]
      simp
  unfold cleanFences
  rw [h1, h2, h3]

/-- The brace index of a list that starts with an opening brace is zero. -/
lemma idxOfBrace_cons_brace (t : List Char) : idxOfBrace (lbrace :: t) = some 0 := by
  unfold idxOfBrace
  simp

/-- C2: the claim fails on the code as stated.  The valid JSON object string
with one key whose string value is a comma followed by a closing brace is
damaged by the trailing-comma regex of extractAndRepairJson, which deletes
the comma inside the string literal, so the repaired string parses to a
different value. -/
theorem extractAndRepairJson_valid_cex :
    jsonParse [lbrace, dq, 'a', dq, ':', dq, ',', rbrace, dq, rbrace] =
      some (Json.jobj [(['a'], Json.jstr [',', rbrace])]) ∧
    jsonParse (extractAndRepairJson [lbrace, dq, 'a', dq, ':', dq, ',', rbrace, dq, rbrace]) =
      some (Json.jobj [(['a'], Json.jstr [rbrace])]) ∧
    Json.jobj [(['a'], Json.jstr [',', rbrace])] ≠ Json.jobj [(['a'], Json.jstr [rbrace])] := by
  refine ⟨rfl, rfl, ?_⟩
  intro hcon
  rw [Json.jobj.injEq] at hcon
  simp at hcon

/-- C2 (amended): on a syntactically valid JSON object string on which the
trailing-comma rewrite makes no change — equivalently, no string literal of
which contains a comma followed by only whitespace and a closing brace or
bracket — extractAndRepairJson returns the trimmed input itself, which
parses to the same value as the input. -/
theorem extractAndRepairJson_valid (l : List Char) (kvs : List (List Char × Json))
    (h : jsonParse l = some (Json.jobj kvs))
    (hfix : fixCommas (jsTrimC l) = jsTrimC l) :
    extractAndRepairJson l = jsTrimC l ∧
    jsonParse (extractAndRepairJson l) = some (Json.jobj kvs) := by
  obtain ⟨⟨t2, ht⟩, hlast⟩ := jsonParse_obj_shape l kvs h
  obtain ⟨P, W, hdec, hP, hW⟩ := jsTrimC_decomp l
  have hne : l.isEmpty = false := by
    cases hl : l with
    | nil =>
      subst hl
      exact absurd h (by simp [jsonParse, jsTrimC, dropTrailWs, pv])
    | cons a t => simp
  have hwsbq : jsWs bq = false := by decide
  have hhead : ∀ c, l.head? = some c → (c == bq) = false := by
    intro c hc
    cases hPc : P with
    | nil =>
      rw [hdec, hPc, List.nil_append, ht] at hc
      rw [List.cons_append, List.head?_cons, Option.some_inj] at hc
      subst hc
      decide
    | cons p ps =>
      rw [hdec, hPc] at hc
      simp only [List.cons_append, List.head?_cons, Option.some_inj] at hc
      have hws : jsWs p = true := hP p (by rw [hPc]; exact List.mem_cons_self ..)
      rw [hc] at hws
      rw [beq_eq_false_iff_ne]
      intro hcc
      rw [hcc] at hws
      exact absurd hws (by decide)
  have hlastl : ∀ c, l.getLast? = some c → (c == bq) = false := by
    intro c hc
    cases hWc : W with
    | nil =>
      rw [hdec, hWc, List.append_nil] at hc
      have htne : jsTrimC l ≠ [] := by rw [ht]; simp
      rw [List.getLast?_append_of_ne_nil P htne, hlast, Option.some_inj] at hc
      subst hc
      decide
    | cons w ws =>
      rw [hdec, hWc] at hc
      have hwne : (w :: ws : List Char) ≠ [] := by simp
      rw [List.getLast?_append_of_ne_nil (P ++ jsTrimC l) hwne] at hc
      have hmem : c ∈ (w :: ws : List Char) := mem_of_getLast?_eq _ c hc
      have := hW c (by rw [hWc]; exact hmem)
      rw [beq_eq_false_iff_ne]
      intro hcc
      rw [hcc] at this
      exact absurd this (by decide)
  have hclean : cleanFences l = jsTrimC l := cleanFences_eq_trim l hhead hlastl
  have hparse2 : jsonParse (jsTrimC l) = some (Json.jobj kvs) := by
    rw [jsonParse_trim]
    exact h
  have hres : extractAndRepairJson l = jsTrimC l := by
    unfold extractAndRepairJson
    rw [hne]
    simp only [Bool.false_eq_true, if_false]
    rw [hclean, ht, idxOfBrace_cons_brace]
    rw [← ht]
    simp only [List.drop_zero]
    rw [hfix, hparse2]
    simp
  exact ⟨hres, by rw [hres]; exact hparse2⟩

/-- C2 witness: the amended theorem applied to a small valid object string. -/
theorem extractAndRepairJson_valid_witness :
    extractAndRepairJson [lbrace, dq, 'a', dq, ':', '1', rbrace] =
      jsTrimC [lbrace, dq, 'a', dq, ':', '1', rbrace] ∧
    jsonParse (extractAndRepairJson [lbrace, dq, 'a', dq, ':', '1', rbrace]) =
      some (Json.jobj [(['a'], Json.jnum ['1'])]) :=
  extractAndRepairJson_valid _ _ rfl (by decide)

/-- The user configuration consumed by the connection helpers (types.ts). -/
structure UserConfig where
  apiKey : Option (List Char)
  baseUrl : Option (List Char)
  modelId : Option (List Char)

/-- The three listing-response shapes the source normalizes, plus anything
else. -/
inductive ListShape where
  | dataArr (models : List (List Char))
  | modelsArr (models : List (List Char))
  | bareArr (models : List (List Char))
  | other
deriving DecidableEq

/-- The outcome of the direct listing fetch: a network-level failure or an
HTTP response with a status and a body shape. -/
inductive FetchOut where
  | netFail
  | resp (status : Nat) (body : ListShape)
deriving DecidableEq

/-- The outcome of the same-origin proxy listing call. -/
inductive ProxyOut where
  | fail
  | ok (models : List (List Char))
deriving DecidableEq

/-- The outcome of the backend connectivity check of src/unnamed/part_000:
a network failure, or a response with its ok flag and success payload. -/
inductive BackendOut where
  | netFail
  | resp (ok : Bool) (success : Bool)
deriving DecidableEq

/-- The errors the connection helpers can raise. -/
inductive ConnErr where
  | noKey
  | netErr
  | httpErr (status : Nat)
  | rate429
  | emptyList
  | proxyFail
deriving DecidableEq

/-- The network requests a helper issues, in order. -/
inductive Req where
  | direct
  | proxy
  | backend
deriving DecidableEq

/-- JavaScript truthiness of an optional string. -/
def keyTruthy : Option (List Char) → Bool
  | none => false
  | some s => !s.isEmpty

/-- Normalization of the three accepted listing shapes to a flat model list
(geminiService.ts lines 71-74 and line 325). -/
def shapeModels : ListShape → List (List Char)
  | .dataArr l => l
  | .modelsArr l => l
  | .bareArr l => l
  | .other => []

/-- Boolean lexicographic order on character lists, standing in for the
localeCompare sort of the model list. -/
def lexLe : List Char → List Char → Bool
  | [], _ => true
  | _ :: _, [] => false
  | a :: as, b :: bs => if a == b then lexLe as bs else decide (a < b)

/-- connectToOpenAI of src/services/geminiService.ts lines 44-89 (first
variant) together with its connectViaProxy fallback, returning the result
and the requests issued: missing key fails before any request; a
network-level fetch failure falls back to the proxy; an HTTP error or an
empty normalized model list is an error; a nonempty list is sorted and
returned. -/
def connectToOpenAI_v1 (cfg : UserConfig) (direct : FetchOut) (proxy : ProxyOut) :
    Except ConnErr (List (List Char)) × List Req :=
  let apiKey := cfg.apiKey.map jsTrimC
  if !(keyTruthy apiKey) then (.error .noKey, [])
  else
    match direct with
    | .netFail =>
      match proxy with
      | .ok ms => (.ok ms, [.direct, .proxy])
      | .fail => (.error .proxyFail, [.direct, .proxy])
    | .resp status body =>
      if status < 200 || 299 < status then (.error (.httpErr status), [.direct])
      else
        let models := shapeModels body
        if models.isEmpty then (.error .emptyList, [.direct])
        else (.ok (models.mergeSort lexLe), [.direct])

/-- checkConnectivity of src/services/geminiService.ts lines 115-124 (first
variant): false without any request when the configuration or key is
missing, otherwise true exactly when connectToOpenAI succeeds, with every
error mapped to false. -/
def checkConnectivity_v1 (cfg? : Option UserConfig) (direct : FetchOut) (proxy : ProxyOut) :
    Bool × List Req :=
  match cfg? with
  | none => (false, [])
  | some cfg =>
    if !(keyTruthy cfg.apiKey) then (false, [])
    else
      let r := connectToOpenAI_v1 cfg direct proxy
      match r.1 with
      | .ok _ => (true, r.2)
      | .error _ => (false, r.2)

/-- connectToOpenAI of src/services/geminiService.ts lines 310-330 (second
variant): no proxy fallback, an explicit 429 error, and no empty-list
check — an empty normalized list is returned as a success. -/
def connectToOpenAI_v2 (cfg : UserConfig) (direct : FetchOut) :
    Except ConnErr (List (List Char)) × List Req :=
  let apiKey := cfg.apiKey.map jsTrimC
  if !(keyTruthy apiKey) then (.error .noKey, [])
  else
    match direct with
    | .netFail => (.error .netErr, [.direct])
    | .resp status body =>
      if status == 429 then (.error .rate429, [.direct])
      else if status < 200 || 299 < status then (.error (.httpErr status), [.direct])
      else (.ok (shapeModels body), [.direct])

/-- checkConnectivity of src/services/geminiService.ts lines 332-340 (second
variant). -/
def checkConnectivity_v2 (cfg? : Option UserConfig) (direct : FetchOut) :
    Bool × List Req :=
  match cfg? with
  | none => (false, [])
  | some cfg =>
    if !(keyTruthy cfg.apiKey) then (false, [])
    else
      let r := connectToOpenAI_v2 cfg direct
      match r.1 with
      | .ok _ => (true, r.2)
      | .error _ => (false, r.2)

/-- checkConnectivity of src/unnamed/part_000 lines 10-30: the check is
always delegated to the backend with one same-origin request — even when no
configuration or key is present — and every failure yields false. -/
def checkConnectivityBackend (cfg? : Option UserConfig) (r : BackendOut) :
    Bool × List Req :=
  match r with
  | .netFail => (false, [.backend])
  | .resp ok success => (if ok then success else false, [.backend])

/-- Whether the optional configuration is absent or carries no truthy key. -/
def keyMissing : Option UserConfig → Bool
  | none => true
  | some c => !(keyTruthy c.apiKey)

/-- C6: the claim fails on the code as stated.  In the second variant of
geminiService.ts (lines 310-340) a listing endpoint answering 200 with
data-colon-empty-array makes checkConnectivity return true, not false: that
variant has no empty-list check. -/
theorem checkConnectivity_emptyList_cex :
    checkConnectivity_v2 (some ⟨some (strL "key"), none, none⟩)
      (FetchOut.resp 200 (ListShape.dataArr [])) = (true, [Req.direct]) := by decide

/-- Evaluation of the first-variant connectivity check on an HTTP response:
it is the conjunction of key presence, an OK status, and a nonempty list. -/
lemma checkConnectivity_v1_eval (cfg : UserConfig) (status : Nat) (body : ListShape)
    (proxy : ProxyOut) :
    (checkConnectivity_v1 (some cfg) (FetchOut.resp status body) proxy).1 =
      (keyTruthy cfg.apiKey && keyTruthy (cfg.apiKey.map jsTrimC) &&
        !(decide (status < 200) || decide (299 < status)) &&
        !(shapeModels body).isEmpty) := by
  unfold checkConnectivity_v1 connectToOpenAI_v1
  by_cases hk : keyTruthy cfg.apiKey = true <;>
    by_cases hk2 : keyTruthy (cfg.apiKey.map jsTrimC) = true <;>
      by_cases hs : (decide (status < 200) || decide (299 < status)) = true <;>
        by_cases hm : (shapeModels body).isEmpty = true <;>
          simp [hk, hk2, hs, hm]

/-- C6 (amended): in the first variant (geminiService.ts lines 44-124),
whenever the direct listing call yields an HTTP response, checkConnectivity
is true iff the key is present (before and after trimming), the status is
OK, and the normalized model list is nonempty; in particular an OK response
with an empty data array yields false.  The second variant (lines 310-340)
violates the claim, as the counterexample shows. -/
theorem checkConnectivity_v1_iff (cfg : UserConfig) (status : Nat) (body : ListShape)
    (proxy : ProxyOut) :
    ((checkConnectivity_v1 (some cfg) (FetchOut.resp status body) proxy).1 = true ↔
      (keyTruthy cfg.apiKey = true ∧ keyTruthy (cfg.apiKey.map jsTrimC) = true ∧
        200 ≤ status ∧ status ≤ 299 ∧ shapeModels body ≠ [])) ∧
    (checkConnectivity_v1 (some cfg) (FetchOut.resp status (ListShape.dataArr [])) proxy).1 =
      false := by
  constructor
  · rw [checkConnectivity_v1_eval]
    simp only [Bool.and_eq_true, Bool.not_eq_true', Bool.or_eq_false_iff,
      decide_eq_false_iff_not, Nat.not_lt]
    constructor
    · rintro ⟨⟨⟨h1, h2⟩, h3, h4⟩, h5⟩
      refine ⟨h1, h2, h3, h4, ?_⟩
      intro hcon
      rw [hcon] at h5
      exact absurd h5 (by decide)
    · rintro ⟨h1, h2, h3, h4, h5⟩
      refine ⟨⟨⟨h1, h2⟩, h3, h4⟩, ?_⟩
      cases hsm : shapeModels body with
      | nil => exact absurd hsm h5
      | cons a t => simp
  · rw [checkConnectivity_v1_eval]
    simp [shapeModels]

/-- C10: the claim fails on the code as stated.  The backend-delegating
checkConnectivity of src/unnamed/part_000 issues its same-origin request
even when no configuration at all is supplied, instead of returning false
without any network request. -/
theorem checkConnectivityBackend_noKey_cex :
    checkConnectivityBackend none BackendOut.netFail = (false, [Req.backend]) := by decide

/-- C10 (amended): the direct-connection variants of checkConnectivity
return false and issue no request when the configuration is absent or has no
key, and they map every connection error to false; the backend-delegating
variant also maps every failure to false but always issues exactly one
same-origin backend request, key or no key. -/
theorem checkConnectivity_total (cfg : UserConfig) (cfg? : Option UserConfig)
    (direct : FetchOut) (proxy : ProxyOut) (b : BackendOut) (e : ConnErr) :
    (keyMissing cfg? = true →
      checkConnectivity_v1 cfg? direct proxy = (false, []) ∧
      checkConnectivity_v2 cfg? direct = (false, [])) ∧
    ((connectToOpenAI_v1 cfg direct proxy).1 = Except.error e →
      (checkConnectivity_v1 (some cfg) direct proxy).1 = false) ∧
    ((connectToOpenAI_v2 cfg direct).1 = Except.error e →
      (checkConnectivity_v2 (some cfg) direct).1 = false) ∧
    (checkConnectivityBackend cfg? b).2 = [Req.backend] := by
  refine ⟨?_, ?_, ?_, ?_⟩
  · intro hmiss
    cases cfg? with
    | none => exact ⟨rfl, rfl⟩
    | some c =>
      have hm2 : (!keyTruthy c.apiKey) = true := hmiss
      exact ⟨by simp [checkConnectivity_v1, hm2], by simp [checkConnectivity_v2, hm2]⟩
  · intro herr
    unfold checkConnectivity_v1
    by_cases hk : keyTruthy cfg.apiKey = true
    · simp only [hk, Bool.not_true, Bool.false_eq_true, if_false]
      rw [herr]
    · have hk0 : keyTruthy cfg.apiKey = false := by simpa using hk
      simp [hk0]
  · intro herr
    unfold checkConnectivity_v2
    by_cases hk : keyTruthy cfg.apiKey = true
    · simp only [hk, Bool.not_true, Bool.false_eq_true, if_false]
      rw [herr]
    · have hk0 : keyTruthy cfg.apiKey = false := by simpa using hk
      simp [hk0]
  · cases b with
    | netFail => rfl
    | resp ok success => rfl

/-- C10 witness: the amended theorem at a missing configuration and a
failing direct call. -/
theorem checkConnectivity_total_witness :
    checkConnectivity_v1 none FetchOut.netFail ProxyOut.fail = (false, []) ∧
    (checkConnectivity_v1 (some ⟨some (strL "key"), none, none⟩)
      FetchOut.netFail ProxyOut.fail).1 = false := by
  have h := checkConnectivity_total ⟨some (strL "key"), none, none⟩ none
    FetchOut.netFail ProxyOut.fail BackendOut.netFail ConnErr.proxyFail
  exact ⟨(h.1 (by decide)).1, h.2.1 rfl⟩

/-- The primary model of the second geminiService.ts variant (line 231). -/
def PRIMARY_MODEL : List Char := strL "gemini-1.5-pro"

/-- The first fallback model (line 232). -/
def FALLBACK_MODEL : List Char := strL "gemini-1.5-flash"

/-- The second fallback model (line 233). -/
def SECONDARY_FALLBACK_MODEL : List Char := strL "gpt-4o-mini"

/-- One provider response to a chat-completion call: either the SDK call
rejects with a status and message, or a completion arrives with a finish
reason, an optional content string, and an optional refusal string. -/
inductive PResp where
  | sdkErr (status : Option Nat) (msg : List Char)
  | completion (finishReason : List Char) (content : Option (List Char))
      (refusal : Option (List Char))

/-- The error the attempt body throws: an optional HTTP status and a
message string. -/
structure AttErr where
  status : Option Nat
  msg : List Char

/-- The observable events of a generation run: provider calls with their
model and retry level, and backoff sleeps in seconds. -/
inductive GenEv where
  | call (model : List Char) (level : Nat)
  | sleep (secs : Nat)
deriving DecidableEq

/-- Message of the safety-filter error of the second variant (line 383). -/
def msgSafety : List Char := strL "Content generation blocked by safety filters."

/-- Message of the empty-body error (line 390). -/
def msgEmptyBody : List Char := strL "API returned an empty body."

/-- Prefix of the model-refusal errors (lines 389 and 410). -/
def msgRefusalPre : List Char := strL "Model Refusal: "

/-- Message of the JSON syntax error (line 413). -/
def msgSyntax : List Char := strL "Failed to parse model output as JSON (Syntax Error)."

/-- Default message of the final throw (line 445). -/
def msgReqFailed : List Char := strL "Request failed."

/-- The quoted response_format token tested by the catch block (line 431). -/
def respFmtToken : List Char := sqc :: (strL "response_format" ++ [sqc])

/-- Last value bound to a key of a parsed object (JavaScript keeps the last
duplicate). -/
def objGet (kvs : List (List Char × Json)) (key : List Char) : Option Json :=
  ((kvs.filter (fun kv => kv.1 == key)).getLast?).map (fun kv => kv.2)

/-- Property assignment on a parsed object: replace an existing binding or
append a new one. -/
def objSet (kvs : List (List Char × Json)) (key : List Char) (v : Json) :
    List (List Char × Json) :=
  if kvs.any (fun kv => kv.1 == key) then
    kvs.map (fun kv => if kv.1 == key then (kv.1, v) else kv)
  else kvs ++ [(key, v)]

/-- Whether a numeric literal denotes zero (every digit is 0). -/
def numFalsy (lit : List Char) : Bool := lit.all (fun c => !(c.isDigit) || c == '0')

/-- JavaScript falsiness of a looked-up JSON field. -/
def jsonFalsy : Option Json → Bool
  | none => true
  | some Json.jnull => true
  | some (Json.jbool b) => !b
  | some (Json.jnum lit) => numFalsy lit
  | some (Json.jstr s) => s.isEmpty
  | some (Json.jarr _) => false
  | some (Json.jobj _) => false

/-- The default-filling of the second variant (lines 400-402): absent or
falsy general_news, medical_news and viral_titles fields are replaced by
empty arrays; non-objects are returned unchanged. -/
def fillDefaults : Json → Json
  | Json.jobj kvs =>
    let k1 := if jsonFalsy (objGet kvs (strL "general_news")) then
        objSet kvs (strL "general_news") (Json.jarr []) else kvs
    let k2 := if jsonFalsy (objGet k1 (strL "medical_news")) then
        objSet k1 (strL "medical_news") (Json.jarr []) else k1
    let k3 := if jsonFalsy (objGet k2 (strL "viral_titles")) then
        objSet k2 (strL "viral_titles") (Json.jarr []) else k2
    Json.jobj k3
  | j => j

/-- The try block of the attempt function of the second geminiService.ts
variant (lines 364-414): safety finish reasons, empty bodies and refusals
throw; otherwise the content is repaired, parsed, filled with defaults and
returned; a parse failure throws a refusal for short brace-free content and
a syntax error otherwise; a parsed null throws on field access and takes the
same catch path. -/
def tryBodyV2 (r : PResp) : Except AttErr Json :=
  match r with
  | .sdkErr st m => .error ⟨st, m⟩
  | .completion fr content refusal =>
    if fr == strL "content_filter" || fr == strL "safety" then .error ⟨none, msgSafety⟩
    else
      match content with
      | none =>
        if keyTruthy refusal then .error ⟨none, msgRefusalPre ++ refusal.getD []⟩
        else .error ⟨none, msgEmptyBody⟩
      | some c =>
        if c.isEmpty then
          (if keyTruthy refusal then .error ⟨none, msgRefusalPre ++ refusal.getD []⟩
           else .error ⟨none, msgEmptyBody⟩)
        else
          let jsonStr := extractAndRepairJson c
          match jsonParse jsonStr with
          | some Json.jnull =>
            if decide (jsonStr.length < 50) && !(containsSub jsonStr [lbrace]) then
              .error ⟨none, msgRefusalPre ++ jsonStr⟩
            else .error ⟨none, msgSyntax⟩
          | some parsed => .ok (fillDefaults parsed)
          | none =>
            if decide (jsonStr.length < 50) && !(containsSub jsonStr [lbrace]) then
              .error ⟨none, msgRefusalPre ++ jsonStr⟩
            else .error ⟨none, msgSyntax⟩

/-- First run of three consecutive digits in a message, as the regex
extraction of the catch block. -/
def first3Digits : List Char → Option Nat
  | a :: b :: c :: t =>
    if a.isDigit && b.isDigit && c.isDigit then
      some ((a.toNat - 48) * 100 + (b.toNat - 48) * 10 + (c.toNat - 48))
    else first3Digits (b :: c :: t)
  | _ => none

/-- The attempt function of the second geminiService.ts variant (lines
364-447), driven by a provider oracle indexed by call number and a fuel
bound; returns the event log, the outcome, and the next call index.  The
catch ladder is: same-model backoff retry while a 429 is seen and the level
is below 3; 429 on the primary past the ceiling moves to the first fallback
at level 0; a response_format or 400 message on the primary moves to the
fallback at level 1; any other error at level 0 moves primary to fallback
or fallback to secondary, both at level 1; otherwise the message is
rethrown. -/
def attemptV2 (provider : Nat → PResp) : Nat → Nat → List Char → Nat →
    List GenEv × Except (List Char) Json × Nat
  | 0, idx, _, _ => ([], .error (strL "fuel"), idx)
  | fuel + 1, idx, mId, retryCount =>
    match tryBodyV2 (provider idx) with
    | .ok payload => ([.call mId retryCount], .ok payload, idx + 1)
    | .error e =>
      let status := match e.status with | some s => some s | none => first3Digits e.msg
      let is429 := (status == some 429) || containsSub e.msg (strL "429")
      if is429 && decide (retryCount < 3) then
        let r := attemptV2 provider fuel (idx + 1) mId (retryCount + 1)
        (GenEv.call mId retryCount :: GenEv.sleep (2 ^ (retryCount + 1)) :: r.1, r.2.1, r.2.2)
      else if is429 && mId == PRIMARY_MODEL then
        let r := attemptV2 provider fuel (idx + 1) FALLBACK_MODEL 0
        (GenEv.call mId retryCount :: r.1, r.2.1, r.2.2)
      else if (containsSub e.msg respFmtToken || containsSub e.msg (strL "400")) &&
          mId == PRIMARY_MODEL then
        let r := attemptV2 provider fuel (idx + 1) FALLBACK_MODEL 1
        (GenEv.call mId retryCount :: r.1, r.2.1, r.2.2)
      else if retryCount == 0 && mId == PRIMARY_MODEL then
        let r := attemptV2 provider fuel (idx + 1) FALLBACK_MODEL 1
        (GenEv.call mId retryCount :: r.1, r.2.1, r.2.2)
      else if retryCount == 0 && mId == FALLBACK_MODEL then
        let r := attemptV2 provider fuel (idx + 1) SECONDARY_FALLBACK_MODEL 1
        (GenEv.call mId retryCount :: r.1, r.2.1, r.2.2)
      else
        ([.call mId retryCount], .error (if e.msg.isEmpty then msgReqFailed else e.msg), idx + 1)

/-- Message of the parse-failure error of src/unnamed/part_000 (line 190),
which also covers its missing-key-fields check. -/
def msgParseFail0 : List Char := strL "Failed to parse model output as JSON."

/-- Default message of the final throw of src/unnamed/part_000 (line 215). -/
def msgReqFailed0 : List Char := strL "Request failed after multiple attempts."

/-- The try block of the attempt function of src/unnamed/part_000 (lines
132-191): markdown fences are cleaned, the content parsed, and a parsed
object missing both general_news and viral_titles — like any parse
failure — throws the parse-failure error. -/
def tryBodyV0 (r : PResp) : Except AttErr Json :=
  match r with
  | .sdkErr st m => .error ⟨st, m⟩
  | .completion fr content refusal =>
    if fr == strL "content_filter" || fr == strL "safety" then
      .error ⟨none,
        strL "Content generation blocked by safety filters (News/Medical topic sensitivity)."⟩
    else
      match content with
      | none =>
        if keyTruthy refusal then .error ⟨none, msgRefusalPre ++ refusal.getD []⟩
        else .error ⟨none, strL "API returned an empty body. Finish Reason: " ++ fr⟩
      | some c =>
        if c.isEmpty then
          (if keyTruthy refusal then .error ⟨none, msgRefusalPre ++ refusal.getD []⟩
           else .error ⟨none, strL "API returned an empty body. Finish Reason: " ++ fr⟩)
        else
          let content2 := cleanFences c
          match jsonParse content2 with
          | some (Json.jobj kvs) =>
            if jsonFalsy (objGet kvs (strL "general_news")) &&
                jsonFalsy (objGet kvs (strL "viral_titles")) then
              .error ⟨none, msgParseFail0⟩
            else .ok (Json.jobj kvs)
          | some _ => .error ⟨none, msgParseFail0⟩
          | none => .error ⟨none, msgParseFail0⟩

/-- The attempt function of src/unnamed/part_000 (lines 132-217): the 429
ladder retries the same model below level 3 and then moves primary to first
fallback and first fallback to secondary, each at level 0; any other error
at level 0 on the primary moves to the first fallback at level 1; otherwise
the message is rethrown. -/
def attemptV0 (provider : Nat → PResp) : Nat → Nat → List Char → Nat →
    List GenEv × Except (List Char) Json × Nat
  | 0, idx, _, _ => ([], .error (strL "fuel"), idx)
  | fuel + 1, idx, mId, retryCount =>
    match tryBodyV0 (provider idx) with
    | .ok payload => ([.call mId retryCount], .ok payload, idx + 1)
    | .error e =>
      let status := match e.status with | some s => some s | none => first3Digits e.msg
      let is429 := (status == some 429) || containsSub e.msg (strL "429")
      if is429 && decide (retryCount < 3) then
        let r := attemptV0 provider fuel (idx + 1) mId (retryCount + 1)
        (GenEv.call mId retryCount :: GenEv.sleep (2 ^ (retryCount + 1)) :: r.1, r.2.1, r.2.2)
      else if is429 && mId == PRIMARY_MODEL then
        let r := attemptV0 provider fuel (idx + 1) FALLBACK_MODEL 0
        (GenEv.call mId retryCount :: r.1, r.2.1, r.2.2)
      else if is429 && mId == FALLBACK_MODEL then
        let r := attemptV0 provider fuel (idx + 1) SECONDARY_FALLBACK_MODEL 0
        (GenEv.call mId retryCount :: r.1, r.2.1, r.2.2)
      else if retryCount == 0 && mId == PRIMARY_MODEL then
        let r := attemptV0 provider fuel (idx + 1) FALLBACK_MODEL 1
        (GenEv.call mId retryCount :: r.1, r.2.1, r.2.2)
      else
        ([.call mId retryCount], .error (if e.msg.isEmpty then msgReqFailed0 else e.msg), idx + 1)

/-- A provider that answers HTTP 429 on every call. -/
def provider429 : Nat → PResp := fun _ => PResp.sdkErr (some 429) (strL "429")

/-- A provider that answers with an empty body on every call. -/
def providerEmpty : Nat → PResp := fun _ => PResp.completion (strL "stop") none none

/-- A provider whose every answer is blocked by the content filter. -/
def providerSafety : Nat → PResp := fun _ => PResp.completion (strL "content_filter") none none

/-- A provider that refuses with a refusal message on every call. -/
def providerRefusal : Nat → PResp :=
  fun _ => PResp.completion (strL "stop") none (some (strL "no"))

/-- A provider that returns the empty JSON object on every call. -/
def providerEmptyObj : Nat → PResp :=
  fun _ => PResp.completion (strL "stop") (some [lbrace, rbrace]) none

/-- The number of provider calls in an event log. -/
def countCalls (evs : List GenEv) : Nat :=
  (evs.filter (fun e => match e with | GenEv.call _ _ => true | GenEv.sleep _ => false)).length

example : (attemptV2 provider429 100 0 PRIMARY_MODEL 0).1 =
    [GenEv.call PRIMARY_MODEL 0, GenEv.sleep 2, GenEv.call PRIMARY_MODEL 1, GenEv.sleep 4,
     GenEv.call PRIMARY_MODEL 2, GenEv.sleep 8, GenEv.call PRIMARY_MODEL 3,
     GenEv.call FALLBACK_MODEL 0, GenEv.sleep 2, GenEv.call FALLBACK_MODEL 1, GenEv.sleep 4,
     GenEv.call FALLBACK_MODEL 2, GenEv.sleep 8, GenEv.call FALLBACK_MODEL 3] := rfl

example : (attemptV2 providerEmpty 100 0 PRIMARY_MODEL 0).1 =
    [GenEv.call PRIMARY_MODEL 0, GenEv.call FALLBACK_MODEL 1] := rfl

/-- C1: the claim fails on the code as stated.  Against an always-429
provider the attempt function of geminiService.ts (lines 364-447) makes 8
provider calls, not 6: the first fallback re-enters the same 429 backoff
ladder at levels 0..3, and the second fallback model is never called at
all because only the primary model has a 429 fallback transition. -/
theorem attemptV2_rateLimit_cex :
    countCalls (attemptV2 provider429 100 0 PRIMARY_MODEL 0).1 = 8 ∧
    ((attemptV2 provider429 100 0 PRIMARY_MODEL 0).1.all
      (fun e => match e with
        | GenEv.call m _ => !(m == SECONDARY_FALLBACK_MODEL)
        | GenEv.sleep _ => true)) = true ∧
    (attemptV2 provider429 100 0 PRIMARY_MODEL 0).2.1 = Except.error (strL "429") :=
  ⟨rfl, rfl, rfl⟩

/-- C1 (amended): against an always-429 provider, the geminiService.ts
variant (lines 364-447) calls the primary model at levels 0..3 with
2-4-8 second backoffs, then the first fallback at levels 0..3 with the same
backoffs, and terminates with the 429 error after 8 calls, never calling
the second fallback; the src/unnamed/part_000 variant runs the full
four-call ladder on all three models, terminating after 12 calls. -/
theorem attempt_rateLimit_traces :
    attemptV2 provider429 100 0 PRIMARY_MODEL 0 =
      ([GenEv.call PRIMARY_MODEL 0, GenEv.sleep 2, GenEv.call PRIMARY_MODEL 1, GenEv.sleep 4,
        GenEv.call PRIMARY_MODEL 2, GenEv.sleep 8, GenEv.call PRIMARY_MODEL 3,
        GenEv.call FALLBACK_MODEL 0, GenEv.sleep 2, GenEv.call FALLBACK_MODEL 1, GenEv.sleep 4,
        GenEv.call FALLBACK_MODEL 2, GenEv.sleep 8, GenEv.call FALLBACK_MODEL 3],
       Except.error (strL "429"), 8) ∧
    attemptV0 provider429 100 0 PRIMARY_MODEL 0 =
      ([GenEv.call PRIMARY_MODEL 0, GenEv.sleep 2, GenEv.call PRIMARY_MODEL 1, GenEv.sleep 4,
        GenEv.call PRIMARY_MODEL 2, GenEv.sleep 8, GenEv.call PRIMARY_MODEL 3,
        GenEv.call FALLBACK_MODEL 0, GenEv.sleep 2, GenEv.call FALLBACK_MODEL 1, GenEv.sleep 4,
        GenEv.call FALLBACK_MODEL 2, GenEv.sleep 8, GenEv.call FALLBACK_MODEL 3,
        GenEv.call SECONDARY_FALLBACK_MODEL 0, GenEv.sleep 2,
        GenEv.call SECONDARY_FALLBACK_MODEL 1, GenEv.sleep 4,
        GenEv.call SECONDARY_FALLBACK_MODEL 2, GenEv.sleep 8,
        GenEv.call SECONDARY_FALLBACK_MODEL 3],
       Except.error (strL "429"), 12) :=
  ⟨rfl, rfl⟩

/-- C7: the claim fails on the code as stated.  Against an always-empty-body
provider, the attempt function of geminiService.ts (lines 364-447)
transitions from the level-0 primary attempt to the first fallback at retry
level 1 — not level 0 — and then terminates with the empty-body cause even
though the secondary fallback model is configured. -/
theorem attemptV2_emptyBody_cex :
    attemptV2 providerEmpty 100 0 PRIMARY_MODEL 0 =
      ([GenEv.call PRIMARY_MODEL 0, GenEv.call FALLBACK_MODEL 1],
       Except.error msgEmptyBody, 2) :=
  rfl

/-- C7 (amended): on an empty body, a safety block, or a provider refusal,
the geminiService.ts variant moves from the level-0 primary attempt to the
first fallback at retry level 1, and the level-1 repeat of the failure
terminates with that specific cause without trying the secondary model;
a parsed response missing the required fields does not fail over at all in
this variant — the missing arrays are defaulted and the attempt succeeds —
while in src/unnamed/part_000 missing fields are a parse failure that
likewise moves only the primary to the first fallback at level 1. -/
theorem attempt_immediate_fallback_traces :
    attemptV2 providerSafety 100 0 PRIMARY_MODEL 0 =
      ([GenEv.call PRIMARY_MODEL 0, GenEv.call FALLBACK_MODEL 1],
       Except.error msgSafety, 2) ∧
    attemptV2 providerRefusal 100 0 PRIMARY_MODEL 0 =
      ([GenEv.call PRIMARY_MODEL 0, GenEv.call FALLBACK_MODEL 1],
       Except.error (msgRefusalPre ++ strL "no"), 2) ∧
    attemptV2 providerEmptyObj 100 0 PRIMARY_MODEL 0 =
      ([GenEv.call PRIMARY_MODEL 0],
       Except.ok (Json.jobj [(strL "general_news", Json.jarr []),
         (strL "medical_news", Json.jarr []), (strL "viral_titles", Json.jarr [])]), 1) ∧
    attemptV0 providerEmptyObj 100 0 PRIMARY_MODEL 0 =
      ([GenEv.call PRIMARY_MODEL 0, GenEv.call FALLBACK_MODEL 1],
       Except.error msgParseFail0, 2) :=
  ⟨rfl, rfl, rfl, rfl⟩

/-- The UI status enumeration of src/types.ts. -/
inductive AppStatus where
  | IDLE
  | CONNECTING
  | SEARCHING
  | GENERATING
  | COMPLETED
  | ERROR
deriving DecidableEq

/-- The progress-log entries handleGenerate appends, abstracted from the
display strings of App.tsx. -/
inductive LogMsg where
  | startSeq
  | searchGround
  | retrieve
  | synth
  | done
  | genError (m : List Char)
deriving DecidableEq

/-- The UI state handleGenerate reads and writes. -/
structure AppState where
  status : AppStatus
  payload : Option Json
  log : List LogMsg

/-- handleGenerate of src/App.tsx lines 89-119 (the guard and body are the
same in src/unnamed/part_008 lines 134-174), with the awaited
generateBriefing outcome supplied as an oracle; returns the new state and
whether a generation call was issued.  A trigger arriving while the status
is GENERATING or SEARCHING returns before touching anything. -/
def handleGenerate (st : AppState) (gen : Except (List Char) Json) : AppState × Bool :=
  if st.status == AppStatus.GENERATING || st.status == AppStatus.SEARCHING then (st, false)
  else
    let st1 : AppState :=
      ⟨AppStatus.SEARCHING, none,
        st.log ++ [LogMsg.startSeq, LogMsg.searchGround, LogMsg.retrieve]⟩
    let st2 : AppState := ⟨AppStatus.GENERATING, st1.payload, st1.log ++ [LogMsg.synth]⟩
    match gen with
    | .ok result =>
      (⟨AppStatus.COMPLETED, some result, st2.log ++ [LogMsg.done]⟩, true)
    | .error m =>
      (⟨AppStatus.ERROR, st2.payload, st2.log ++ [LogMsg.genError m]⟩, true)

/-- C8 (confirmed): invoking handleGenerate while a prior cycle is in
flight — status SEARCHING or GENERATING — is a no-op: the state is returned
unchanged and no generation call is issued. -/
theorem handleGenerate_busy_noop (st : AppState) (gen : Except (List Char) Json)
    (h : st.status = AppStatus.GENERATING ∨ st.status = AppStatus.SEARCHING) :
    handleGenerate st gen = (st, false) := by
  unfold handleGenerate
  rcases h with h | h <;> rw [h] <;> simp

/-- C8 witness: the guard at a concrete in-flight state. -/
theorem handleGenerate_busy_noop_witness :
    handleGenerate ⟨AppStatus.SEARCHING, none, []⟩ (Except.error (strL "x")) =
      (⟨AppStatus.SEARCHING, none, []⟩, false) :=
  handleGenerate_busy_noop ⟨AppStatus.SEARCHING, none, []⟩ (Except.error (strL "x"))
    (Or.inr rfl)

/-- A Beijing wall-clock reading, with its calendar-date string. -/
structure BTime where
  hours : Nat
  minutes : Nat
  dateStr : List Char

/-- The scheduler state: the last-auto-run date marker and the UI status. -/
structure SchedState where
  lastAutoRunDate : List Char
  status : AppStatus

/-- checkSchedule of src/App.tsx lines 57-74 (identical in
src/unnamed/part_008 lines 102-119): fire only at Beijing 09:00 when the
marker differs from the current date and no cycle is running; on firing,
record the date and enter the generation cycle (which sets SEARCHING). -/
def checkSchedule (t : BTime) (st : SchedState) : Bool × SchedState :=
  if t.hours == 9 && t.minutes == 0 && !(st.lastAutoRunDate == t.dateStr) then
    if st.status == AppStatus.IDLE || st.status == AppStatus.COMPLETED then
      (true, { lastAutoRunDate := t.dateStr, status := AppStatus.SEARCHING })
    else (false, st)
  else (false, st)

/-- An event seen by the scheduler loop: a 10-second tick with the current
Beijing time, or an external status change (a cycle finishing or failing). -/
inductive SchedEv where
  | tick (t : BTime)
  | setStatus (s : AppStatus)

/-- One scheduler event: ticks run checkSchedule, status events only move
the status. -/
def schedStep (st : SchedState) : SchedEv → Nat × SchedState
  | .tick t =>
    let r := checkSchedule t st
    (if r.1 then 1 else 0, r.2)
  | .setStatus s => (0, { st with status := s })

/-- Folding the scheduler over an event list, counting fires. -/
def schedRun (st : SchedState) : List SchedEv → Nat × SchedState
  | [] => (0, st)
  | e :: es =>
    let r := schedStep st e
    let r2 := schedRun r.2 es
    (r.1 + r2.1, r2.2)

/-- Once the marker equals the day, no tick of that day fires again. -/
lemma schedRun_marked (evs : List SchedEv) (d : List Char) :
    ∀ st : SchedState, st.lastAutoRunDate = d →
      (∀ t2, SchedEv.tick t2 ∈ evs → t2.dateStr = d) →
      (schedRun st evs).1 = 0 ∧ (schedRun st evs).2.lastAutoRunDate = d := by
  induction evs with
  | nil => exact fun st hst _ => ⟨rfl, hst⟩
  | cons e es ih =>
    intro st hst hd
    cases e with
    | tick t2 =>
      have hdate : t2.dateStr = d := hd t2 (by simp)
      have hguard : (st.lastAutoRunDate == t2.dateStr) = true := by
        rw [hst, hdate]
        exact beq_self_eq_true d
      have hstep : checkSchedule t2 st = (false, st) := by
        unfold checkSchedule
        rw [hguard]
        simp
      have ihr := ih st hst (fun t3 ht3 => hd t3 (List.mem_cons_of_mem _ ht3))
      simp only [schedRun, schedStep, hstep]
      simpa using ihr
    | setStatus s =>
      have ihr := ih { st with status := s } hst (fun t3 ht3 => hd t3 (List.mem_cons_of_mem _ ht3))
      simp only [schedRun, schedStep]
      simpa using ihr

/-- C9 (confirmed): the scheduler fires only when the Beijing clock reads
09:00 and the stored marker differs from the current date, records the
current date as the marker when it fires, and over any event sequence whose
ticks all fall on one Beijing calendar day it fires at most once. -/
theorem checkSchedule_daily (t : BTime) (st0 : SchedState) (evs : List SchedEv)
    (d : List Char) :
    ((checkSchedule t st0).1 = true →
      t.hours = 9 ∧ t.minutes = 0 ∧ st0.lastAutoRunDate ≠ t.dateStr ∧
      (checkSchedule t st0).2.lastAutoRunDate = t.dateStr) ∧
    ((∀ t2, SchedEv.tick t2 ∈ evs → t2.dateStr = d) → (schedRun st0 evs).1 ≤ 1) := by
  constructor
  · intro hfire
    unfold checkSchedule at hfire ⊢
    by_cases hcond : (t.hours == 9 && t.minutes == 0 && !(st0.lastAutoRunDate == t.dateStr)) = true
    · rcases Bool.and_eq_true_iff.mp hcond with ⟨h12, h3⟩
      rcases Bool.and_eq_true_iff.mp h12 with ⟨h1, h2⟩
      refine ⟨(beq_iff_eq ..).mp h1, (beq_iff_eq ..).mp h2, ?_, ?_⟩
      · intro hcc
        rw [hcc] at h3
        simp at h3
      · rw [hcond] at hfire ⊢
        simp only [if_true] at hfire ⊢
        by_cases hguard : (st0.status == AppStatus.IDLE || st0.status == AppStatus.COMPLETED) = true
        · rw [hguard]
          simp
        · rw [Bool.not_eq_true] at hguard
          rw [hguard] at hfire
          simp at hfire
    · rw [Bool.not_eq_true] at hcond
      rw [hcond] at hfire
      simp at hfire
  · intro hd
    induction evs generalizing st0 with
    | nil => simp [schedRun]
    | cons e es ih =>
      cases e with
      | tick t2 =>
        simp only [schedRun, schedStep]
        cases hfire : (checkSchedule t2 st0).1 with
        | false =>
          have hst : (checkSchedule t2 st0).2 = st0 := by
            unfold checkSchedule at hfire ⊢
            by_cases hcond : (t2.hours == 9 && t2.minutes == 0 &&
                !(st0.lastAutoRunDate == t2.dateStr)) = true
            · rw [hcond] at hfire ⊢
              simp only [if_true] at hfire ⊢
              by_cases hguard : (st0.status == AppStatus.IDLE ||
                  st0.status == AppStatus.COMPLETED) = true
              · rw [hguard] at hfire
                simp at hfire
              · rw [Bool.not_eq_true] at hguard
                rw [hguard]
                simp
            · rw [Bool.not_eq_true] at hcond
              rw [hcond]
              simp
          rw [hst]
          have hih := ih st0 (fun t3 ht3 => hd t3 (List.mem_cons_of_mem _ ht3))
          simpa using hih
        | true =>
          have hmark : (checkSchedule t2 st0).2.lastAutoRunDate = t2.dateStr := by
            unfold checkSchedule at hfire ⊢
            by_cases hcond : (t2.hours == 9 && t2.minutes == 0 &&
                !(st0.lastAutoRunDate == t2.dateStr)) = true
            · rw [hcond] at hfire ⊢
              simp only [if_true] at hfire ⊢
              by_cases hguard : (st0.status == AppStatus.IDLE ||
                  st0.status == AppStatus.COMPLETED) = true
              · rw [hguard]
                simp
              · rw [Bool.not_eq_true] at hguard
                rw [hguard] at hfire
                simp at hfire
            · rw [Bool.not_eq_true] at hcond
              rw [hcond] at hfire
              simp at hfire
          have hdate : t2.dateStr = d := hd t2 (by simp)
          have hrest := schedRun_marked es d (checkSchedule t2 st0).2
            (by rw [hmark, hdate]) (fun t3 ht3 => hd t3 (List.mem_cons_of_mem _ ht3))
          rw [hrest.1]
          simp
      | setStatus s =>
        simp only [schedRun, schedStep]
        have hih := ih { st0 with status := s } (fun t3 ht3 => hd t3 (List.mem_cons_of_mem _ ht3))
        simpa using hih

/-- C9 witness: at a concrete 09:00 Beijing tick the scheduler fires,
records the date, and a same-day repeat tick keeps the fire count at one. -/
theorem checkSchedule_daily_witness :
    (checkSchedule ⟨9, 0, strL "Mon Jan 01 2029"⟩ ⟨[], AppStatus.IDLE⟩).2.lastAutoRunDate =
      strL "Mon Jan 01 2029" ∧
    (schedRun ⟨[], AppStatus.IDLE⟩
      [SchedEv.tick ⟨9, 0, strL "Mon Jan 01 2029"⟩,
       SchedEv.tick ⟨9, 0, strL "Mon Jan 01 2029"⟩]).1 ≤ 1 := by
  have h := checkSchedule_daily ⟨9, 0, strL "Mon Jan 01 2029"⟩ ⟨[], AppStatus.IDLE⟩
    [SchedEv.tick ⟨9, 0, strL "Mon Jan 01 2029"⟩,
     SchedEv.tick ⟨9, 0, strL "Mon Jan 01 2029"⟩] (strL "Mon Jan 01 2029")
  refine ⟨(h.1 (by decide)).2.2.2, h.2 ?_⟩
  intro t2 ht
  rcases List.mem_cons.mp ht with hh | hh
  · cases hh
    rfl
  · rcases List.mem_cons.mp hh with hh2 | hh2
    · cases hh2
      rfl
    · cases hh2
